import Mathlib

/-!
Verification of the upload-and-render workflow of the invoice-processor
frontend (src/src/App.js).  The JavaScript source is shallowly embedded:
JSON values parsed from response bodies become the inductive `Json`,
React state becomes the record `AppState`, the `handleUpload` async
function becomes a pure transition on `AppState` parameterized by the
outcome of the single `fetch` call, and the CSV/JSON export helpers
become pure functions on `Json`.
-/

/-- A JSON value as produced by `response.json()` / `JSON.parse`.
Numbers are modelled as integers (the response bodies relevant to the
workflow carry strings, arrays and objects; fractional doubles are out
of scope of the embedding).  Objects are insertion-ordered key/value
lists; `JSON.parse` never produces duplicate keys (last write wins),
which the embedded parser reproduces. -/
inductive Json where
  | null : Json
  | bool : Bool → Json
  | num : Int → Json
  | str : String → Json
  | arr : List Json → Json
  | obj : List (String × Json) → Json

mutual
/-- Structural (deep) equality test on JSON values. -/
def jsonBeq : Json → Json → Bool
  | Json.null, Json.null => true
  | Json.bool a, Json.bool b => a == b
  | Json.num a, Json.num b => a == b
  | Json.str a, Json.str b => a == b
  | Json.arr a, Json.arr b => jsonListBeq a b
  | Json.obj a, Json.obj b => jsonPairsBeq a b
  | _, _ => false

/-- Deep equality on lists of JSON values. -/
def jsonListBeq : List Json → List Json → Bool
  | [], [] => true
  | a :: as, b :: bs => jsonBeq a b && jsonListBeq as bs
  | _, _ => false

/-- Deep equality on key/value lists. -/
def jsonPairsBeq : List (String × Json) → List (String × Json) → Bool
  | [], [] => true
  | (k, v) :: as, (l, w) :: bs => k == l && jsonBeq v w && jsonPairsBeq as bs
  | _, _ => false
end

mutual
/-- `jsonBeq` is sound for equality. -/
def jsonBeq_eq : (a b : Json) → jsonBeq a b = true → a = b
  | Json.null, Json.null, _ => rfl
  | Json.bool _, Json.bool _, h => congrArg Json.bool (by simpa [jsonBeq] using h)
  | Json.num _, Json.num _, h => congrArg Json.num (by simpa [jsonBeq] using h)
  | Json.str _, Json.str _, h => congrArg Json.str (by simpa [jsonBeq] using h)
  | Json.arr a, Json.arr b, h => congrArg Json.arr (jsonListBeq_eq a b h)
  | Json.obj a, Json.obj b, h => congrArg Json.obj (jsonPairsBeq_eq a b h)
  | Json.null, Json.bool _, h => nomatch h
  | Json.null, Json.num _, h => nomatch h
  | Json.null, Json.str _, h => nomatch h
  | Json.null, Json.arr _, h => nomatch h
  | Json.null, Json.obj _, h => nomatch h
  | Json.bool _, Json.null, h => nomatch h
  | Json.bool _, Json.num _, h => nomatch h
  | Json.bool _, Json.str _, h => nomatch h
  | Json.bool _, Json.arr _, h => nomatch h
  | Json.bool _, Json.obj _, h => nomatch h
  | Json.num _, Json.null, h => nomatch h
  | Json.num _, Json.bool _, h => nomatch h
  | Json.num _, Json.str _, h => nomatch h
  | Json.num _, Json.arr _, h => nomatch h
  | Json.num _, Json.obj _, h => nomatch h
  | Json.str _, Json.null, h => nomatch h
  | Json.str _, Json.bool _, h => nomatch h
  | Json.str _, Json.num _, h => nomatch h
  | Json.str _, Json.arr _, h => nomatch h
  | Json.str _, Json.obj _, h => nomatch h
  | Json.arr _, Json.null, h => nomatch h
  | Json.arr _, Json.bool _, h => nomatch h
  | Json.arr _, Json.num _, h => nomatch h
  | Json.arr _, Json.str _, h => nomatch h
  | Json.arr _, Json.obj _, h => nomatch h
  | Json.obj _, Json.null, h => nomatch h
  | Json.obj _, Json.bool _, h => nomatch h
  | Json.obj _, Json.num _, h => nomatch h
  | Json.obj _, Json.str _, h => nomatch h
  | Json.obj _, Json.arr _, h => nomatch h

/-- `jsonListBeq` is sound for equality. -/
def jsonListBeq_eq : (a b : List Json) → jsonListBeq a b = true → a = b
  | [], [], _ => rfl
  | [], _ :: _, h => nomatch h
  | _ :: _, [], h => nomatch h
  | a :: as, b :: bs, h => by
      have h1 : jsonBeq a b = true ∧ jsonListBeq as bs = true := by
        simpa [jsonListBeq, Bool.and_eq_true] using h
      exact congrArg₂ List.cons (jsonBeq_eq a b h1.1) (jsonListBeq_eq as bs h1.2)

/-- `jsonPairsBeq` is sound for equality. -/
def jsonPairsBeq_eq : (a b : List (String × Json)) → jsonPairsBeq a b = true → a = b
  | [], [], _ => rfl
  | [], _ :: _, h => nomatch h
  | _ :: _, [], h => nomatch h
  | (k, v) :: as, (l, w) :: bs, h => by
      have h1 : (k == l) = true ∧ jsonBeq v w = true ∧ jsonPairsBeq as bs = true := by
        simpa [jsonPairsBeq, Bool.and_eq_true, and_assoc] using h
      have hk : k = l := by simpa using h1.1
      exact congrArg₂ List.cons (by rw [hk, jsonBeq_eq v w h1.2.1])
        (jsonPairsBeq_eq as bs h1.2.2)
end

mutual
/-- `jsonBeq` is reflexive. -/
def jsonBeq_rfl : (a : Json) → jsonBeq a a = true
  | Json.null => rfl
  | Json.bool b => by simp [jsonBeq]
  | Json.num n => by simp [jsonBeq]
  | Json.str s => by simp [jsonBeq]
  | Json.arr a => jsonListBeq_rfl a
  | Json.obj a => jsonPairsBeq_rfl a

/-- `jsonListBeq` is reflexive. -/
def jsonListBeq_rfl : (a : List Json) → jsonListBeq a a = true
  | [] => rfl
  | a :: as => by
      simp only [jsonListBeq, Bool.and_eq_true]
      exact ⟨jsonBeq_rfl a, jsonListBeq_rfl as⟩

/-- `jsonPairsBeq` is reflexive. -/
def jsonPairsBeq_rfl : (a : List (String × Json)) → jsonPairsBeq a a = true
  | [] => rfl
  | (k, v) :: as => by
      simp only [jsonPairsBeq, Bool.and_eq_true]
      exact ⟨⟨by simp, jsonBeq_rfl v⟩, jsonPairsBeq_rfl as⟩
end

instance : DecidableEq Json := fun a b =>
  if h : jsonBeq a b = true then isTrue (jsonBeq_eq a b h)
  else isFalse (fun he => h (he ▸ jsonBeq_rfl a))

/-- JavaScript truthiness of a JSON value: `null`, `false`, `0` and the
empty string are falsy; every array and object (even empty) is truthy. -/
def jsTruthy : Json → Bool
  | Json.null => false
  | Json.bool b => b
  | Json.num n => n != 0
  | Json.str s => s != ""
  | Json.arr _ => true
  | Json.obj _ => true

/-- Truthiness of a possibly-absent value (`undefined` is falsy). -/
def jsTruthyOpt : Option Json → Bool
  | some v => jsTruthy v
  | none => false

/-- First-occurrence lookup in an object's key/value list (lists built by
the embedded parser are duplicate-free, so this is plain JS property
lookup). -/
def lookupKey : List (String × Json) → String → Option Json
  | [], _ => none
  | (k, v) :: rest, key => if k = key then some v else lookupKey rest key

/-- JS property access `v.key`: a value on objects, `undefined` (`none`)
on everything else (property access on primitives and arrays yields
`undefined` for the non-index keys used by the source). -/
def jsGet : Json → String → Option Json
  | Json.obj ps, k => lookupKey ps k
  | _, _ => none

/-- JS property assignment `o.key = v` on an object's key/value list:
overwrite in place if the key exists, append otherwise. -/
def setKey : List (String × Json) → String → Json → List (String × Json)
  | [], k, v => [(k, v)]
  | (k', v') :: rest, k, v =>
      if k' = k then (k', v) :: rest else (k', v') :: setKey rest k v

/-- The keys of an object value, in order (used to count the keys of a
stored `extracted_data`). -/
def jsKeys : Json → List String
  | Json.obj ps => ps.map Prod.fst
  | _ => []

/-- Decimal digits, most significant first, fuel-indexed so that the
definition reduces in the kernel; `fuel > n` is always enough. -/
def natDigitsF : Nat → Nat → List Char
  | 0, _ => []
  | fuel + 1, n =>
    if n < 10 then [Char.ofNat (48 + n)]
    else natDigitsF fuel (n / 10) ++ [Char.ofNat (48 + n % 10)]

/-- Decimal digits of a natural number, most significant first
(JS `String(n)` for a non-negative integer). -/
def natDigits (n : Nat) : List Char := natDigitsF (n + 1) n

/-- JS `String(n)` for an integer. -/
def intStr (n : Int) : String :=
  if n < 0 then "-" ++ String.mk (natDigits n.natAbs)
  else String.mk (natDigits n.natAbs)

mutual
/-- JS `String(v)` coercion as used by template literals and
`Array.prototype.join`: strings are themselves, arrays join their
elements with "," (with `null` rendered empty), plain objects render
as "[object Object]". -/
def jsToString : Json → String
  | Json.null => "null"
  | Json.bool b => if b then "true" else "false"
  | Json.num n => intStr n
  | Json.str s => s
  | Json.arr es => String.intercalate "," (arrElemStrs es)
  | Json.obj _ => "[object Object]"

/-- Element strings for `Array.prototype.toString`: `null` elements
render as the empty string. -/
def arrElemStrs : List Json → List String
  | [] => []
  | Json.null :: rest => "" :: arrElemStrs rest
  | e :: rest => jsToString e :: arrElemStrs rest
end

/-! ## CSV export (`convertToCSV` in App.js) -/

/-- `data.extracted_data || {}` — the extracted-data mapping, defaulted to
an empty object when absent or falsy. -/
def extractedOf (d : Json) : Json :=
  match jsGet d "extracted_data" with
  | some x => if jsTruthy x then x else Json.obj []
  | none => Json.obj []

/-- A CSV cell `v || placeholder`: the JS string of the value when it is
present and truthy, the placeholder otherwise. -/
def csvCell (v : Option Json) (ph : String) : String :=
  match v with
  | some x => if jsTruthy x then jsToString x else ph
  | none => ph

/-- The "Dates Found" cell: `(extractedData.dates_found || []).join(', ') || 'None'`.
`none` models the TypeError thrown when `dates_found` is truthy but not
an array (`.join` is then not a function). -/
def datesFoundCell (v : Option Json) : Option String :=
  let base := match v with
    | some x => if jsTruthy x then x else Json.arr []
    | none => Json.arr []
  match base with
  | Json.arr es =>
      let j := String.intercalate ", " (arrElemStrs es)
      some (if j = "" then "None" else j)
  | _ => none

/-- `data.confidence_scores?.overall` — optional chaining. -/
def confidenceOverall (d : Json) : Option Json :=
  (jsGet d "confidence_scores").bind (fun cs => jsGet cs "overall")

/-- The fixed list of rows built by `convertToCSV`, as (already joined)
cell lists; `none` when the dates cell throws. -/
def csvRows (d : Json) : Option (List (List String)) :=
  let ed := extractedOf d
  match datesFoundCell (jsGet ed "dates_found") with
  | none => none
  | some dates => some
      [ ["Field", "Value"],
        ["Vendor Name", csvCell (jsGet ed "vendor_name") "Not found"],
        ["Vendor Email", csvCell (jsGet ed "vendor_email") "Not found"],
        ["Vendor Phone", csvCell (jsGet ed "vendor_phone") "Not found"],
        ["Invoice Number", csvCell (jsGet ed "invoice_number") "Not found"],
        ["Invoice Date", csvCell (jsGet ed "invoice_date") "Not found"],
        ["VAT Number", csvCell (jsGet ed "vat_number") "Not found"],
        ["Total Amount", csvCell (jsGet ed "total_amount") "Not found"],
        ["Subtotal", csvCell (jsGet ed "subtotal") "Not found"],
        ["Tax Amount", csvCell (jsGet ed "tax_amount") "Not found"],
        ["Payment Terms", csvCell (jsGet ed "payment_terms") "Not found"],
        ["Dates Found", dates],
        ["Processing Method", csvCell (jsGet d "processing_method") "Unknown"],
        ["Processing Time", csvCell (jsGet d "processing_timestamp") "Unknown"],
        ["Confidence Score", csvCell (confidenceOverall d) "Not available"] ]

/-- `convertToCSV`: rows joined by "," then by newlines. -/
def convertToCSV (d : Json) : Option String :=
  (csvRows d).map (fun rs => String.intercalate "\n" (rs.map (String.intercalate ",")))

/-- `dates_found` values on which `convertToCSV` completes without a
TypeError: absent, falsy, or an array. -/
def datesOk (d : Json) : Bool :=
  match jsGet (extractedOf d) "dates_found" with
  | none => true
  | some (Json.arr _) => true
  | some x => !jsTruthy x

/-! ## `JSON.stringify(v, null, 2)` -/

/-- Lowercase hex digit character. -/
def hexDigitChar (k : Nat) : Char :=
  Char.ofNat (if k < 10 then 48 + k else 87 + k)

/-- Escape of one character inside a JSON string literal, exactly as
`JSON.stringify` emits it: quote, backslash and the named control
escapes, `\u00XX` for the remaining control characters, the character
itself otherwise. -/
def escC (c : Char) : List Char :=
  if c = '"' then ['\\', '"']
  else if c = '\\' then ['\\', '\\']
  else if c = '\n' then ['\\', 'n']
  else if c = '\r' then ['\\', 'r']
  else if c = '\t' then ['\\', 't']
  else if c = '\x08' then ['\\', 'b']
  else if c = '\x0c' then ['\\', 'f']
  else if c.toNat < 32 then
    ['\\', 'u', '0', '0', hexDigitChar (c.toNat / 16), hexDigitChar (c.toNat % 16)]
  else [c]

/-- Escape every character of a string body. -/
def escList : List Char → List Char
  | [] => []
  | c :: rest => escC c ++ escList rest

/-- A quoted JSON string literal. -/
def quoteStr (s : String) : String :=
  String.mk ('"' :: (escList s.data ++ ['"']))

/-- The two-space indentation prefix at nesting depth `d`. -/
def indentStr (d : Nat) : String :=
  String.mk (List.replicate (2 * d) ' ')

mutual
/-- `JSON.stringify(v, null, 2)` at nesting depth `d`: primitives render
inline, non-empty arrays and objects open a line per entry indented two
more spaces, with the closing bracket back at depth `d`. -/
def stringifyAt : Nat → Json → String
  | _, Json.null => "null"
  | _, Json.bool b => if b then "true" else "false"
  | _, Json.num n => intStr n
  | _, Json.str s => quoteStr s
  | _, Json.arr [] => "[]"
  | d, Json.arr (e :: es) =>
      "[\n" ++ itemsStr (d + 1) (e :: es) ++ "\n" ++ indentStr d ++ "]"
  | _, Json.obj [] => "\x7b\x7d"
  | d, Json.obj (p :: ps) =>
      "\x7b\n" ++ membersStr (d + 1) (p :: ps) ++ "\n" ++ indentStr d ++ "\x7d"

/-- Array entries, one per line at depth `d`, comma separated. -/
def itemsStr : Nat → List Json → String
  | _, [] => ""
  | d, [e] => indentStr d ++ stringifyAt d e
  | d, e :: rest => indentStr d ++ stringifyAt d e ++ ",\n" ++ itemsStr d rest

/-- Object members, one per line at depth `d`, comma separated. -/
def membersStr : Nat → List (String × Json) → String
  | _, [] => ""
  | d, [(k, v)] => indentStr d ++ quoteStr k ++ ": " ++ stringifyAt d v
  | d, (k, v) :: rest =>
      indentStr d ++ quoteStr k ++ ": " ++ stringifyAt d v ++ ",\n" ++ membersStr d rest
end

/-- The JSON text rendered into the result panel:
`JSON.stringify(result, null, 2)`. -/
def stringify2 (v : Json) : String := stringifyAt 0 v

/-! ## `JSON.parse` -/

/-- JSON whitespace. -/
def isWsC (c : Char) : Bool :=
  c = ' ' || c = '\n' || c = '\t' || c = '\r'

/-- Drop leading JSON whitespace. -/
def skipWs : List Char → List Char
  | [] => []
  | c :: rest => if isWsC c then skipWs rest else c :: rest

/-- Value of one hex digit. -/
def hexVal (c : Char) : Option Nat :=
  if '0' ≤ c && c ≤ '9' then some (c.toNat - 48)
  else if 'a' ≤ c && c ≤ 'f' then some (c.toNat - 87)
  else if 'A' ≤ c && c ≤ 'F' then some (c.toNat - 55)
  else none

/-- Decode of a single-character escape after a backslash. -/
def escDecode (e : Char) : Option Char :=
  if e = '"' then some '"'
  else if e = '\\' then some '\\'
  else if e = '/' then some '/'
  else if e = 'b' then some '\x08'
  else if e = 'f' then some '\x0c'
  else if e = 'n' then some '\n'
  else if e = 'r' then some '\r'
  else if e = 't' then some '\t'
  else none

/-- Parse the body of a JSON string literal (the opening quote already
consumed), returning the decoded characters and the input after the
closing quote. -/
def parseStrChars : List Char → Option (List Char × List Char)
  | [] => none
  | c :: rest =>
    if c = '"' then some ([], rest)
    else if c = '\\' then
      match rest with
      | [] => none
      | e :: rest2 =>
        if e = 'u' then
          match rest2 with
          | h1 :: h2 :: h3 :: h4 :: rest3 =>
            match hexVal h1, hexVal h2, hexVal h3, hexVal h4 with
            | some a, some b, some c2, some d2 =>
                (parseStrChars rest3).map
                  (fun p => (Char.ofNat (((a * 16 + b) * 16 + c2) * 16 + d2) :: p.1, p.2))
            | _, _, _, _ => none
          | _ => none
        else
          match escDecode e with
          | some c2 => (parseStrChars rest2).map (fun p => (c2 :: p.1, p.2))
          | none => none
    else (parseStrChars rest).map (fun p => (c :: p.1, p.2))

/-- Is `c` a decimal digit? -/
def isDigitC (c : Char) : Bool := '0' ≤ c && c ≤ '9'

/-- Consume a maximal run of digits, extending the accumulator. -/
def digitsVal : List Char → Nat → Nat × List Char
  | [], acc => (acc, [])
  | c :: rest, acc =>
      if isDigitC c then digitsVal rest (acc * 10 + (c.toNat - 48))
      else (acc, c :: rest)

/-- Parse a non-negative integer (at least one digit). -/
def parseNatNum : List Char → Option (Nat × List Char)
  | [] => none
  | c :: rest => if isDigitC c then some (digitsVal rest (c.toNat - 48)) else none

/-- Parse an optionally-signed integer. -/
def parseIntNum : List Char → Option (Int × List Char)
  | [] => none
  | c :: rest =>
      if c = '-' then (parseNatNum rest).map (fun p => (-(p.1 : Int), p.2))
      else (parseNatNum (c :: rest)).map (fun p => ((p.1 : Int), p.2))

/-- Rebuild a parsed member list with JS object-insertion semantics:
assigning each pair in order, overwriting earlier occurrences of the
same key in place (`JSON.parse` keeps the last value for a duplicate
key). -/
def dedupPairs (ps : List (String × Json)) : List (String × Json) :=
  ps.foldl (fun acc p => setKey acc p.1 p.2) []

mutual
/-- Parse one JSON value (fuel-indexed recursion). -/
def parseVal : Nat → List Char → Option (Json × List Char)
  | 0, _ => none
  | fuel + 1, cs =>
    match skipWs cs with
    | [] => none
    | c :: rest =>
      if c = 'n' then
        match rest with
        | 'u' :: 'l' :: 'l' :: r => some (Json.null, r)
        | _ => none
      else if c = 't' then
        match rest with
        | 'r' :: 'u' :: 'e' :: r => some (Json.bool true, r)
        | _ => none
      else if c = 'f' then
        match rest with
        | 'a' :: 'l' :: 's' :: 'e' :: r => some (Json.bool false, r)
        | _ => none
      else if c = '"' then
        (parseStrChars rest).map (fun p => (Json.str (String.mk p.1), p.2))
      else if c = '[' then
        match skipWs rest with
        | ']' :: r => some (Json.arr [], r)
        | cs2 => (parseItems fuel cs2).map (fun p => (Json.arr p.1, p.2))
      else if c = '\x7b' then
        match skipWs rest with
        | '\x7d' :: r => some (Json.obj [], r)
        | cs2 => (parseMembers fuel cs2).map (fun p => (Json.obj (dedupPairs p.1), p.2))
      else (parseIntNum (c :: rest)).map (fun p => (Json.num p.1, p.2))

/-- Parse a non-empty comma-separated list of array items up to the
closing bracket. -/
def parseItems : Nat → List Char → Option (List Json × List Char)
  | 0, _ => none
  | fuel + 1, cs =>
    match parseVal fuel cs with
    | none => none
    | some (v, r1) =>
      match skipWs r1 with
      | ',' :: r2 => (parseItems fuel r2).map (fun p => (v :: p.1, p.2))
      | ']' :: r2 => some ([v], r2)
      | _ => none

/-- Parse a non-empty comma-separated list of object members up to the
closing brace. -/
def parseMembers : Nat → List Char → Option (List (String × Json) × List Char)
  | 0, _ => none
  | fuel + 1, cs =>
    match skipWs cs with
    | '"' :: r0 =>
      match parseStrChars r0 with
      | none => none
      | some (k, r1) =>
        match skipWs r1 with
        | ':' :: r2 =>
          match parseVal fuel r2 with
          | none => none
          | some (v, r3) =>
            match skipWs r3 with
            | ',' :: r4 => (parseMembers fuel r4).map (fun p => ((String.mk k, v) :: p.1, p.2))
            | '\x7d' :: r4 => some ([(String.mk k, v)], r4)
            | _ => none
        | _ => none
    | _ => none
end

/-- `JSON.parse` on a whole document: one value, then only trailing
whitespace. -/
def jsonParse (s : String) : Option Json :=
  match parseVal (s.length + 1) s.data with
  | some (v, rest) => if skipWs rest = [] then some v else none
  | none => none

/-! ## Workflow state (`App` component state and `handleUpload`) -/

/-- The user-selected file handle: name, size in bytes, MIME type
(content is not inspected by the workflow). -/
structure SelectedFile where
  name : String
  size : Nat
  mime : String
deriving DecidableEq

/-- The component state: `useState` hooks `file`, `loading`, `result`,
`error`, `processingMethod`. -/
structure AppState where
  file : Option SelectedFile
  loading : Bool
  result : Option Json
  error : Option String
  processingMethod : String
deriving DecidableEq

/-- Initial state on mount: `null`/`false` everywhere, method "ai". -/
def initState : AppState :=
  { file := none, loading := false, result := none, error := none,
    processingMethod := "ai" }

/-- `handleFileChange`: store the (possibly absent) picked file and clear
both result and error. -/
def handleFileChange (s : AppState) (f : Option SelectedFile) : AppState :=
  { s with file := f, result := none, error := none }

/-- The radio-button handler `setProcessingMethod`. -/
def setMethod (s : AppState) (m : String) : AppState :=
  { s with processingMethod := m }

/-- The outcome of the single `fetch` call: either the promise rejects
with an error message (transport failure), or a response arrives with a
status code and a body text. -/
inductive FetchOutcome where
  | fail : String → FetchOutcome
  | resp : Nat → String → FetchOutcome
deriving DecidableEq

/-- `response.ok`: status in the 2xx range. -/
def respOk (status : Nat) : Bool := 200 ≤ status && status < 300

/-- `(process.env.REACT_APP_API_URL || 'http://localhost:8000')`:
the configured value unless it is absent or the empty string (JS `||`
tests truthiness). -/
def apiBase (env : Option String) : String :=
  match env with
  | some s => if s = "" then "http://localhost:8000" else s
  | none => "http://localhost:8000"

/-- `.replace(/\/$/, '')`: strip one trailing slash if present. -/
def stripTrailingSlash (s : String) : String :=
  match s.data.getLast? with
  | some '/' => String.mk s.data.dropLast
  | _ => s

/-- The request target `${apiUrl}/process`. -/
def requestUrl (env : Option String) : String :=
  stripTrailingSlash (apiBase env) ++ "/process"

/-- Modelled from the spec: the message of the `SyntaxError` thrown by
`response.json()` on an unparseable body is produced by the browser
engine, which this repository does not implement; it is represented by
a fixed placeholder string. -/
def jsonRejectMessage : String := "Unexpected token in JSON"

/-- The `!data || typeof data !== 'object'` validation: true exactly for
`null` (falsy) and the non-object primitives; arrays and objects pass
(`typeof` of an array is "object"). -/
def failsObjectCheck : Json → Bool
  | Json.null => true
  | Json.bool _ => true
  | Json.num _ => true
  | Json.str _ => true
  | Json.arr _ => false
  | Json.obj _ => false

/-- The all-null `extracted_data` structure synthesized when the
response lacks one (`vendor_name` … `dates_found`). -/
def defaultExtracted : Json :=
  Json.obj
    [ ("vendor_name", Json.null),
      ("vendor_email", Json.null),
      ("vendor_phone", Json.null),
      ("invoice_number", Json.null),
      ("customer_number", Json.null),
      ("vat_number", Json.null),
      ("total_amount", Json.null),
      ("dates_found", Json.arr []) ]

/-- `if (!data.extracted_data) data.extracted_data = {…}`: patch the
parsed object in place when its `extracted_data` is absent or falsy.
On an array the source attaches a non-index property, which JSON
serialization and the rendered field grid read back; the embedding
keeps the array unchanged (no claim inspects that property). -/
def patchExtracted : Json → Json
  | Json.obj ps =>
      if jsTruthyOpt (lookupKey ps "extracted_data") then Json.obj ps
      else Json.obj (setKey ps "extracted_data" defaultExtracted)
  | v => v

/-- The body of the `try` block after the `fetch` resolves: either the
value passed to `setResult`, or the message of the thrown error (which
the `catch` block stores with the "Error processing invoice: " prefix).
Follows the source order: non-ok status, then `response.json()`, then
the object check, then the `detail` check, then the patch. -/
def tryBlock : FetchOutcome → Except String Json
  | FetchOutcome.fail msg => Except.error msg
  | FetchOutcome.resp status body =>
    if !respOk status then
      Except.error ("HTTP error! status: " ++ toString status ++ " - " ++ body)
    else
      match jsonParse body with
      | none => Except.error jsonRejectMessage
      | some data =>
        if failsObjectCheck data then
          Except.error "Invalid response format from server"
        else
          match jsGet data "detail" with
          | some dv =>
              if jsTruthy dv then
                Except.error ("Server error: " ++ jsToString dv)
              else Except.ok (patchExtracted data)
          | none => Except.ok (patchExtracted data)

/-- The state after the early return when no file is selected. -/
def noFileState (s : AppState) : AppState :=
  { s with error := some "Please select a file first" }

/-- The state right after `setLoading(true); setError(null);
setResult(null)`, while the request is in flight. -/
def inflightState (s : AppState) : AppState :=
  { s with loading := true, error := none, result := none }

/-- The state after the request settles: result or prefixed error,
and `loading` back to false via the `finally` block. -/
def settledState (s : AppState) (o : FetchOutcome) : AppState :=
  let t := inflightState s
  match tryBlock o with
  | Except.ok data => { t with result := some data, loading := false }
  | Except.error m =>
      { t with error := some ("Error processing invoice: " ++ m), loading := false }

/-- The successive state snapshots of one `handleUpload` call: just the
error state when no file is selected, otherwise the in-flight snapshot
followed by the settled one. -/
def uploadPhases (s : AppState) (o : FetchOutcome) : List AppState :=
  if s.file.isSome then [inflightState s, settledState s o] else [noFileState s]

/-- `handleUpload`: the final state, paired with the list of request
targets issued (empty when the precondition fails, the single POST
target otherwise). -/
def handleUpload (s : AppState) (env : Option String) (o : FetchOutcome) :
    AppState × List String :=
  if s.file.isSome then (settledState s o, [requestUrl env])
  else (noFileState s, [])

/-- One UI event: a file-picker change, a processing-method change, or a
button press running `handleUpload` to completion (the environment
chooses the fetch outcome). -/
inductive Step : AppState → AppState → Prop where
  | select (s : AppState) (f : Option SelectedFile) : Step s (handleFileChange s f)
  | method (s : AppState) (m : String) : Step s (setMethod s m)
  | upload (s : AppState) (env : Option String) (o : FetchOutcome) :
      Step s (handleUpload s env o).1

/-- States reachable from the mount state by UI events. -/
inductive Reachable : AppState → Prop where
  | init : Reachable initState
  | step {s s' : AppState} : Reachable s → Step s s' → Reachable s'

/-! ## Helper lemmas and shared concrete inputs -/

/-- Is the value a (non-array) JSON object? -/
def isObj : Json → Bool
  | Json.obj _ => true
  | _ => false

/-- A concrete selected file used to instantiate universally quantified
theorems. -/
def sampleFile : SelectedFile :=
  { name := "invoice.pdf", size := 1024, mime := "application/pdf" }

/-- A concrete state with a file selected. -/
def fileState : AppState := { initState with file := some sampleFile }

/-- The all-placeholder row list produced when every optional field is
missing or falsy. -/
def placeholderRows : List (List String) :=
  [ ["Field", "Value"],
    ["Vendor Name", "Not found"],
    ["Vendor Email", "Not found"],
    ["Vendor Phone", "Not found"],
    ["Invoice Number", "Not found"],
    ["Invoice Date", "Not found"],
    ["VAT Number", "Not found"],
    ["Total Amount", "Not found"],
    ["Subtotal", "Not found"],
    ["Tax Amount", "Not found"],
    ["Payment Terms", "Not found"],
    ["Dates Found", "None"],
    ["Processing Method", "Unknown"],
    ["Processing Time", "Unknown"],
    ["Confidence Score", "Not available"] ]

/-- A concrete stored result whose listed fields are all present but
falsy. -/
def falsyResult : Json :=
  Json.obj
    [ ("extracted_data", Json.obj
        [ ("vendor_name", Json.str ""),
          ("vendor_email", Json.str ""),
          ("vendor_phone", Json.null),
          ("invoice_number", Json.num 0),
          ("invoice_date", Json.bool false),
          ("vat_number", Json.str ""),
          ("total_amount", Json.num 0),
          ("subtotal", Json.str ""),
          ("tax_amount", Json.null),
          ("payment_terms", Json.str ""),
          ("dates_found", Json.num 0) ]),
      ("processing_method", Json.str ""),
      ("processing_timestamp", Json.bool false),
      ("confidence_scores", Json.obj [("overall", Json.num 0)]) ]

/-- Does the input not start with a decimal digit?  (The number parser
consumes digits greedily; text following an emitted number satisfies
this.) -/
def noLeadDigit : List Char → Bool
  | [] => true
  | c :: _ => !isDigitC c

/-- All keys in a list are pairwise distinct. -/
def distinctKeys : List String → Bool
  | [] => true
  | k :: rest => !(rest.contains k) && distinctKeys rest

mutual
/-- Well-formed JSON value: every object (at any depth) has duplicate-free
keys.  `JSON.parse` only produces such values, so every stored result is
well-formed. -/
def wfJson : Json → Bool
  | Json.arr es => wfList es
  | Json.obj ps => distinctKeys (ps.map Prod.fst) && wfPairs ps
  | _ => true

/-- Well-formedness of all elements. -/
def wfList : List Json → Bool
  | [] => true
  | e :: rest => wfJson e && wfList rest

/-- Well-formedness of all member values. -/
def wfPairs : List (String × Json) → Bool
  | [] => true
  | p :: rest => wfJson p.2 && wfPairs rest
end

mutual
/-- Fuel sufficient for `parseVal` to parse the rendering of a value. -/
def needFuel : Json → Nat
  | Json.arr es => 1 + needFuelItems es
  | Json.obj ps => 1 + needFuelMembers ps
  | _ => 1

/-- Fuel sufficient for `parseItems` over the rendered items. -/
def needFuelItems : List Json → Nat
  | [] => 0
  | e :: rest => 1 + needFuel e + needFuelItems rest

/-- Fuel sufficient for `parseMembers` over the rendered members. -/
def needFuelMembers : List (String × Json) → Nat
  | [] => 0
  | p :: rest => 1 + needFuel p.2 + needFuelMembers rest
end

/-- A concrete stored result exercising strings, escapes, arrays,
numbers, booleans and null. -/
def sampleResult : Json :=
  Json.obj
    [ ("extracted_data", Json.obj
        [ ("vendor_name", Json.str "Acme Co"),
          ("total_amount", Json.str "123.45"),
          ("dates_found", Json.arr [Json.str "2024-01-01"]) ]),
      ("confidence", Json.num 95),
      ("success", Json.bool true),
      ("note", Json.str "a\"b\\c\nd"),
      ("warning", Json.null) ]

/-- An object is some `Json.obj`. -/
theorem isObj_exists {d : Json} (h : isObj d = true) : ∃ ps, d = Json.obj ps := by
  cases d <;> simp [isObj] at h ⊢

/-- Assignment then lookup of the same key. -/
theorem lookupKey_setKey_self (ps : List (String × Json)) (k : String) (v : Json) :
    lookupKey (setKey ps k v) k = some v := by
  induction ps with
  | nil => simp [setKey, lookupKey]
  | cons p rest ih =>
      by_cases h : p.1 = k
      · cases p; simp_all [setKey, lookupKey]
      · cases p; simp_all [setKey, lookupKey]

/-! ## Claim theorems -/

/-- C3: for every submit attempt while no file is selected, `error` is set
to exactly "Please select a file first", no HTTP request is issued,
`loading` is not set, and `result` (and the file itself) are unchanged. -/
theorem noFile_submit_fixed_error_no_request (s : AppState) (env : Option String)
    (o : FetchOutcome) (h : s.file = none) :
    (handleUpload s env o).1.error = some "Please select a file first" ∧
    (handleUpload s env o).2 = [] ∧
    (handleUpload s env o).1.loading = s.loading ∧
    (handleUpload s env o).1.result = s.result ∧
    (handleUpload s env o).1.file = s.file := by
  simp [handleUpload, h, noFileState]

/-- Witness for C3 at the initial state. -/
theorem noFile_submit_fixed_error_no_request_witness :
    (handleUpload initState none (FetchOutcome.resp 200 "\x7b\x7d")).1.error =
      some "Please select a file first" ∧
    (handleUpload initState none (FetchOutcome.resp 200 "\x7b\x7d")).2 = [] ∧
    (handleUpload initState none (FetchOutcome.resp 200 "\x7b\x7d")).1.loading =
      initState.loading ∧
    (handleUpload initState none (FetchOutcome.resp 200 "\x7b\x7d")).1.result =
      initState.result ∧
    (handleUpload initState none (FetchOutcome.resp 200 "\x7b\x7d")).1.file =
      initState.file :=
  noFile_submit_fixed_error_no_request initState none (FetchOutcome.resp 200 "\x7b\x7d") rfl

/-- C6 counterexample: with the base URL configured to the empty string,
the request target is the default-based URL, not the configured (empty)
base with "/process" appended, refuting the claim for that configured
value. -/
theorem empty_config_target_cex :
    requestUrl (some "") = "http://localhost:8000/process" ∧
    requestUrl (some "") ≠ stripTrailingSlash "" ++ "/process" := by
  constructor
  · decide
  · decide

/-- C6 (amended): the single request issued by a submit with a file
selected targets `requestUrl env`; the target is the default
"http://localhost:8000/process" when the configured value is absent or
empty (JS `||` treats the empty string like absence), and for every
non-empty configured base URL it is the base with a single trailing
slash stripped followed by "/process". -/
theorem request_target_resolution (s : AppState) (env : Option String)
    (o : FetchOutcome) (hf : s.file.isSome = true) :
    (handleUpload s env o).2 = [requestUrl env] ∧
    requestUrl none = "http://localhost:8000/process" ∧
    requestUrl (some "") = "http://localhost:8000/process" ∧
    (∀ u : String, u ≠ "" → requestUrl (some u) = stripTrailingSlash u ++ "/process") := by
  refine ⟨by simp [handleUpload, hf], by decide, by decide, ?_⟩
  intro u hu
  simp [requestUrl, apiBase, hu]

/-- Witness for C6 at a slash-terminated configured base. -/
theorem request_target_resolution_witness :
    (handleUpload fileState (some "http://api.example.com/") (FetchOutcome.resp 200 "\x7b\x7d")).2 =
      [requestUrl (some "http://api.example.com/")] ∧
    requestUrl none = "http://localhost:8000/process" ∧
    requestUrl (some "") = "http://localhost:8000/process" ∧
    (∀ u : String, u ≠ "" → requestUrl (some u) = stripTrailingSlash u ++ "/process") :=
  request_target_resolution fileState (some "http://api.example.com/")
    (FetchOutcome.resp 200 "\x7b\x7d") rfl

/-- C1 counterexample: for the 2xx response with body "\x7b\x7d" (an object
lacking `extracted_data`), the stored result's synthesized
`extracted_data` has exactly eight keys, not nine. -/
theorem synthesized_extracted_eight_keys_cex :
    ((handleUpload fileState none (FetchOutcome.resp 200 "\x7b\x7d")).1.result.bind
        (fun r => jsGet r "extracted_data")).map (fun ed => (jsKeys ed).length) =
      some 8 ∧ (8 : Nat) ≠ 9 := by
  constructor
  · decide
  · decide

/-- C1 (amended): for every 2xx response whose parsed body is an object
lacking an `extracted_data` mapping and not carrying a truthy `detail`
field, submit stores a result whose `extracted_data` is the synthesized
structure with exactly the eight recognized keys vendor_name,
vendor_email, vendor_phone, invoice_number, customer_number, vat_number,
total_amount and dates_found, each null except `dates_found`, which is
an empty sequence. -/
theorem missing_extracted_data_synthesized (s : AppState) (env : Option String)
    (st : Nat) (body : String) (data : Json)
    (hf : s.file.isSome = true) (hst : respOk st = true)
    (hp : jsonParse body = some data) (hobj : isObj data = true)
    (hdet : jsTruthyOpt (jsGet data "detail") = false)
    (hed : jsGet data "extracted_data" = none) :
    (handleUpload s env (FetchOutcome.resp st body)).1.result =
      some (patchExtracted data) ∧
    jsGet (patchExtracted data) "extracted_data" = some defaultExtracted ∧
    jsKeys defaultExtracted = ["vendor_name", "vendor_email", "vendor_phone",
      "invoice_number", "customer_number", "vat_number", "total_amount",
      "dates_found"] ∧
    (∀ k ∈ jsKeys defaultExtracted,
        k = "dates_found" ∨ jsGet defaultExtracted k = some Json.null) ∧
    jsGet defaultExtracted "dates_found" = some (Json.arr []) := by
  obtain ⟨ps, rfl⟩ := isObj_exists hobj
  have hlk : lookupKey ps "extracted_data" = none := by simpa [jsGet] using hed
  refine ⟨?_, ?_, by decide, by decide, by decide⟩
  · simp only [handleUpload, hf, if_true, settledState, inflightState, tryBlock]
    rw [hst]
    simp only [Bool.not_true, if_neg (by simp : ¬ (false = true))]
    rw [hp]
    simp only [failsObjectCheck, if_neg (by simp : ¬ (false = true))]
    cases hdv : jsGet (Json.obj ps) "detail" with
    | none => simp
    | some dv =>
        have : jsTruthy dv = false := by
          have := hdet
          rw [hdv] at this
          simpa [jsTruthyOpt] using this
        simp [this]
  · simp [patchExtracted, hlk, jsTruthyOpt, jsGet, lookupKey_setKey_self]

/-- Witness for C1 at the empty-object body. -/
theorem missing_extracted_data_synthesized_witness :
    (handleUpload fileState none (FetchOutcome.resp 200 "\x7b\x7d")).1.result =
      some (patchExtracted (Json.obj [])) ∧
    jsGet (patchExtracted (Json.obj [])) "extracted_data" = some defaultExtracted ∧
    jsKeys defaultExtracted = ["vendor_name", "vendor_email", "vendor_phone",
      "invoice_number", "customer_number", "vat_number", "total_amount",
      "dates_found"] ∧
    (∀ k ∈ jsKeys defaultExtracted,
        k = "dates_found" ∨ jsGet defaultExtracted k = some Json.null) ∧
    jsGet defaultExtracted "dates_found" = some (Json.arr []) :=
  missing_extracted_data_synthesized fileState none 200 "\x7b\x7d" (Json.obj [])
    rfl rfl (by decide) rfl rfl rfl

/-- Reduction of the `try` block on a 2xx response with a parseable body. -/
theorem tryBlock_ok_parse (st : Nat) (body : String) (data : Json)
    (hst : respOk st = true) (hp : jsonParse body = some data) :
    tryBlock (FetchOutcome.resp st body) =
      (if failsObjectCheck data then
        Except.error "Invalid response format from server"
      else
        match jsGet data "detail" with
        | some dv =>
            if jsTruthy dv then
              Except.error ("Server error: " ++ jsToString dv)
            else Except.ok (patchExtracted data)
        | none => Except.ok (patchExtracted data)) := by
  simp [tryBlock, hst, hp]

/-- With a file selected, `handleUpload` ends in the settled state. -/
theorem handleUpload_file_settles (s : AppState) (env : Option String)
    (o : FetchOutcome) (hf : s.file.isSome = true) :
    (handleUpload s env o).1 = settledState s o := by
  simp [handleUpload, hf]

/-- C4 counterexample: a 2xx response whose parsed body carries a `detail`
field with a falsy value (the empty string) stores a result and no
error, refuting the claim for that response. -/
theorem detail_field_present_but_falsy_cex :
    (handleUpload fileState none
        (FetchOutcome.resp 200 "\x7b\"detail\":\"\"\x7d")).1.error = none ∧
    (handleUpload fileState none
        (FetchOutcome.resp 200 "\x7b\"detail\":\"\"\x7d")).1.result.isSome = true := by
  constructor
  · decide
  · decide

/-- C4 (amended): for every 2xx response whose parsed body is an object
carrying a truthy `detail` value, submit stores the error
"Error processing invoice: Server error: " followed by the JS string of
that detail value, and stores no result, even though the HTTP status is
a success status. -/
theorem truthy_detail_stores_error (s : AppState) (env : Option String)
    (st : Nat) (body : String) (data dv : Json)
    (hf : s.file.isSome = true) (hst : respOk st = true)
    (hp : jsonParse body = some data)
    (hdv : jsGet data "detail" = some dv) (ht : jsTruthy dv = true) :
    (handleUpload s env (FetchOutcome.resp st body)).1.error =
      some ("Error processing invoice: Server error: " ++ jsToString dv) ∧
    (handleUpload s env (FetchOutcome.resp st body)).1.result = none := by
  have hob : failsObjectCheck data = false := by
    cases data <;> simp_all [jsGet, failsObjectCheck]
  rw [handleUpload_file_settles s env _ hf, settledState,
    tryBlock_ok_parse st body data hst hp]
  have hcat : "Error processing invoice: " ++ ("Server error: " ++ jsToString dv) =
      "Error processing invoice: Server error: " ++ jsToString dv := by
    rw [← String.append_assoc]
    exact congrArg (· ++ jsToString dv) (by decide)
  simp [hob, hdv, ht, inflightState, hcat]

/-- Witness for C4 at a concrete detail message. -/
theorem truthy_detail_stores_error_witness :
    (handleUpload fileState none
        (FetchOutcome.resp 200 "\x7b\"detail\":\"unsupported file type\"\x7d")).1.error =
      some ("Error processing invoice: Server error: " ++
        jsToString (Json.str "unsupported file type")) ∧
    (handleUpload fileState none
        (FetchOutcome.resp 200 "\x7b\"detail\":\"unsupported file type\"\x7d")).1.result =
      none :=
  truthy_detail_stores_error fileState none 200
    "\x7b\"detail\":\"unsupported file type\"\x7d"
    (Json.obj [("detail", Json.str "unsupported file type")])
    (Json.str "unsupported file type") rfl rfl (by decide) rfl rfl

/-- C9: for every 2xx response whose parsed body is an object whose
`detail` field is present but falsy, submit does not take the
server-reported-failure path: it stores the (possibly patched) object
as the result and leaves `error` absent. -/
theorem falsy_detail_stores_result (s : AppState) (env : Option String)
    (st : Nat) (body : String) (data dv : Json)
    (hf : s.file.isSome = true) (hst : respOk st = true)
    (hp : jsonParse body = some data)
    (hdv : jsGet data "detail" = some dv) (hfalse : jsTruthy dv = false) :
    (handleUpload s env (FetchOutcome.resp st body)).1.result =
      some (patchExtracted data) ∧
    (handleUpload s env (FetchOutcome.resp st body)).1.error = none := by
  have hob : failsObjectCheck data = false := by
    cases data <;> simp_all [jsGet, failsObjectCheck]
  rw [handleUpload_file_settles s env _ hf, settledState,
    tryBlock_ok_parse st body data hst hp]
  simp [hob, hdv, hfalse, inflightState]

/-- Witness for C9 at `detail` equal to `0`. -/
theorem falsy_detail_stores_result_witness :
    (handleUpload fileState none
        (FetchOutcome.resp 200 "\x7b\"detail\":0\x7d")).1.result =
      some (patchExtracted (Json.obj [("detail", Json.num 0)])) ∧
    (handleUpload fileState none
        (FetchOutcome.resp 200 "\x7b\"detail\":0\x7d")).1.error = none :=
  falsy_detail_stores_result fileState none 200 "\x7b\"detail\":0\x7d"
    (Json.obj [("detail", Json.num 0)]) (Json.num 0) rfl rfl (by decide) rfl rfl

/-- C5 counterexample: a 2xx response whose parsed body is an array —
not an object in the claim's sense — is stored as a result with no
error (`typeof` of an array is "object"), instead of producing the
"Invalid response format from server" error the claim requires. -/
theorem array_body_stored_as_result_cex :
    (handleUpload fileState none (FetchOutcome.resp 200 "[1]")).1.error = none ∧
    (handleUpload fileState none (FetchOutcome.resp 200 "[1]")).1.result.isSome = true := by
  constructor
  · decide
  · decide

/-- C5 (amended): for every 2xx response whose parsed body is `null`, a
boolean, a number or a string (values failing the `!data || typeof data
!== 'object'` check — arrays pass it), submit stores the error
"Error processing invoice: Invalid response format from server" and no
result.  (A body that fails to parse instead surfaces the JSON parser's
own message behind the same prefix.) -/
theorem invalid_format_error (s : AppState) (env : Option String)
    (st : Nat) (body : String) (data : Json)
    (hf : s.file.isSome = true) (hst : respOk st = true)
    (hp : jsonParse body = some data)
    (hbad : failsObjectCheck data = true) :
    (handleUpload s env (FetchOutcome.resp st body)).1.error =
      some "Error processing invoice: Invalid response format from server" ∧
    (handleUpload s env (FetchOutcome.resp st body)).1.result = none := by
  rw [handleUpload_file_settles s env _ hf, settledState,
    tryBlock_ok_parse st body data hst hp]
  simp [hbad, inflightState]

/-- Witness for C5 at the body "null". -/
theorem invalid_format_error_witness :
    (handleUpload fileState none (FetchOutcome.resp 200 "null")).1.error =
      some "Error processing invoice: Invalid response format from server" ∧
    (handleUpload fileState none (FetchOutcome.resp 200 "null")).1.result = none :=
  invalid_format_error fileState none 200 "null" Json.null rfl rfl (by decide) rfl

/-- C7: the CSV export always produces the same number of rows — fifteen,
fixed by the field list — beginning with the header row "Field,Value";
whenever `dates_found` is absent, falsy or an array the export
succeeds, and every absent optional field renders as its fixed
placeholder instead of being omitted. -/
theorem csv_export_fixed_rows (d : Json) :
    (datesOk d = true → (csvRows d).isSome = true) ∧
    (∀ rs, csvRows d = some rs →
      rs.length = 15 ∧
      rs.head? = some ["Field", "Value"] ∧
      convertToCSV d = some (String.intercalate "\n" (rs.map (String.intercalate ","))) ∧
      (jsGet (extractedOf d) "vendor_name" = none →
        rs[1]? = some ["Vendor Name", "Not found"]) ∧
      (jsGet (extractedOf d) "vendor_email" = none →
        rs[2]? = some ["Vendor Email", "Not found"]) ∧
      (jsGet (extractedOf d) "vendor_phone" = none →
        rs[3]? = some ["Vendor Phone", "Not found"]) ∧
      (jsGet (extractedOf d) "invoice_number" = none →
        rs[4]? = some ["Invoice Number", "Not found"]) ∧
      (jsGet (extractedOf d) "invoice_date" = none →
        rs[5]? = some ["Invoice Date", "Not found"]) ∧
      (jsGet (extractedOf d) "vat_number" = none →
        rs[6]? = some ["VAT Number", "Not found"]) ∧
      (jsGet (extractedOf d) "total_amount" = none →
        rs[7]? = some ["Total Amount", "Not found"]) ∧
      (jsGet (extractedOf d) "subtotal" = none →
        rs[8]? = some ["Subtotal", "Not found"]) ∧
      (jsGet (extractedOf d) "tax_amount" = none →
        rs[9]? = some ["Tax Amount", "Not found"]) ∧
      (jsGet (extractedOf d) "payment_terms" = none →
        rs[10]? = some ["Payment Terms", "Not found"]) ∧
      (jsGet (extractedOf d) "dates_found" = none →
        rs[11]? = some ["Dates Found", "None"]) ∧
      (jsGet d "processing_method" = none →
        rs[12]? = some ["Processing Method", "Unknown"]) ∧
      (jsGet d "processing_timestamp" = none →
        rs[13]? = some ["Processing Time", "Unknown"]) ∧
      (confidenceOverall d = none →
        rs[14]? = some ["Confidence Score", "Not available"])) := by
  constructor
  · intro hok
    unfold datesOk at hok
    have hsome : (datesFoundCell (jsGet (extractedOf d) "dates_found")).isSome = true := by
      cases hv : jsGet (extractedOf d) "dates_found" with
      | none => simp [datesFoundCell]
      | some x =>
          rw [hv] at hok
          cases x <;> simp_all [datesFoundCell, jsTruthy]
    simp only [csvRows]
    cases hdc : datesFoundCell (jsGet (extractedOf d) "dates_found") with
    | none => rw [hdc] at hsome; simp at hsome
    | some dates => simp
  · intro rs h
    simp only [csvRows] at h
    cases hdc : datesFoundCell (jsGet (extractedOf d) "dates_found") with
    | none => rw [hdc] at h; exact absurd h (by simp)
    | some dates =>
        rw [hdc] at h
        simp only [Option.some.injEq] at h
        subst h
        refine ⟨by simp, rfl, by simp [convertToCSV, csvRows, hdc], ?_, ?_, ?_, ?_, ?_,
          ?_, ?_, ?_, ?_, ?_, ?_, ?_, ?_, ?_⟩ <;> intro h'
        · simp [csvCell, h']
        · simp [csvCell, h']
        · simp [csvCell, h']
        · simp [csvCell, h']
        · simp [csvCell, h']
        · simp [csvCell, h']
        · simp [csvCell, h']
        · simp [csvCell, h']
        · simp [csvCell, h']
        · simp [csvCell, h']
        · rw [h'] at hdc
          have hno : datesFoundCell none = some "None" := by decide
          rw [hno] at hdc
          simp only [Option.some.injEq] at hdc
          subst hdc
          simp
        · simp [csvCell, h']
        · simp [csvCell, h']
        · simp [csvCell, h']

/-- Witness for C7 at the empty object. -/
theorem csv_export_fixed_rows_witness :
    placeholderRows.length = 15 ∧
    placeholderRows.head? = some ["Field", "Value"] ∧
    convertToCSV (Json.obj []) =
      some (String.intercalate "\n" (placeholderRows.map (String.intercalate ","))) ∧
    placeholderRows[1]? = some ["Vendor Name", "Not found"] ∧
    placeholderRows[11]? = some ["Dates Found", "None"] ∧
    placeholderRows[14]? = some ["Confidence Score", "Not available"] := by
  obtain ⟨h1, h2, h3, h4, -, -, -, -, -, -, -, -, -, hd, -, -, hc⟩ :=
    (csv_export_fixed_rows (Json.obj [])).2 placeholderRows (by decide)
  exact ⟨h1, h2, h3, h4 (by decide), hd (by decide), hc (by decide)⟩

/-- C10: for every field in the CSV field list whose value is present but
falsy (empty string, 0, false, null), `convertToCSV` renders the
field's placeholder ("Not found", "None", "Unknown" or "Not available")
instead of the value, exactly as it renders a missing field. -/
theorem csv_falsy_value_renders_placeholder (d : Json) (rs : List (List String))
    (h : csvRows d = some rs) :
    (∀ v, jsGet (extractedOf d) "vendor_name" = some v → jsTruthy v = false →
      rs[1]? = some ["Vendor Name", "Not found"]) ∧
    (∀ v, jsGet (extractedOf d) "vendor_email" = some v → jsTruthy v = false →
      rs[2]? = some ["Vendor Email", "Not found"]) ∧
    (∀ v, jsGet (extractedOf d) "vendor_phone" = some v → jsTruthy v = false →
      rs[3]? = some ["Vendor Phone", "Not found"]) ∧
    (∀ v, jsGet (extractedOf d) "invoice_number" = some v → jsTruthy v = false →
      rs[4]? = some ["Invoice Number", "Not found"]) ∧
    (∀ v, jsGet (extractedOf d) "invoice_date" = some v → jsTruthy v = false →
      rs[5]? = some ["Invoice Date", "Not found"]) ∧
    (∀ v, jsGet (extractedOf d) "vat_number" = some v → jsTruthy v = false →
      rs[6]? = some ["VAT Number", "Not found"]) ∧
    (∀ v, jsGet (extractedOf d) "total_amount" = some v → jsTruthy v = false →
      rs[7]? = some ["Total Amount", "Not found"]) ∧
    (∀ v, jsGet (extractedOf d) "subtotal" = some v → jsTruthy v = false →
      rs[8]? = some ["Subtotal", "Not found"]) ∧
    (∀ v, jsGet (extractedOf d) "tax_amount" = some v → jsTruthy v = false →
      rs[9]? = some ["Tax Amount", "Not found"]) ∧
    (∀ v, jsGet (extractedOf d) "payment_terms" = some v → jsTruthy v = false →
      rs[10]? = some ["Payment Terms", "Not found"]) ∧
    (∀ v, jsGet (extractedOf d) "dates_found" = some v → jsTruthy v = false →
      rs[11]? = some ["Dates Found", "None"]) ∧
    (∀ v, jsGet d "processing_method" = some v → jsTruthy v = false →
      rs[12]? = some ["Processing Method", "Unknown"]) ∧
    (∀ v, jsGet d "processing_timestamp" = some v → jsTruthy v = false →
      rs[13]? = some ["Processing Time", "Unknown"]) ∧
    (∀ v, confidenceOverall d = some v → jsTruthy v = false →
      rs[14]? = some ["Confidence Score", "Not available"]) := by
  simp only [csvRows] at h
  cases hdc : datesFoundCell (jsGet (extractedOf d) "dates_found") with
  | none => rw [hdc] at h; exact absurd h (by simp)
  | some dates =>
      rw [hdc] at h
      simp only [Option.some.injEq] at h
      subst h
      refine ⟨?_, ?_, ?_, ?_, ?_, ?_, ?_, ?_, ?_, ?_, ?_, ?_, ?_, ?_⟩ <;> intro v h' hfv
      · simp [csvCell, h', hfv]
      · simp [csvCell, h', hfv]
      · simp [csvCell, h', hfv]
      · simp [csvCell, h', hfv]
      · simp [csvCell, h', hfv]
      · simp [csvCell, h', hfv]
      · simp [csvCell, h', hfv]
      · simp [csvCell, h', hfv]
      · simp [csvCell, h', hfv]
      · simp [csvCell, h', hfv]
      · rw [h'] at hdc
        have hno : datesFoundCell (some v) = some "None" := by
          have h0 : String.intercalate ", " (arrElemStrs []) = "" := by decide
          simp [datesFoundCell, hfv, h0]
        rw [hno] at hdc
        simp only [Option.some.injEq] at hdc
        subst hdc
        simp
      · simp [csvCell, h', hfv]
      · simp [csvCell, h', hfv]
      · simp [csvCell, h', hfv]

/-- Witness for C10 at `falsyResult`. -/
theorem csv_falsy_value_renders_placeholder_witness :
    placeholderRows[1]? = some ["Vendor Name", "Not found"] ∧
    placeholderRows[11]? = some ["Dates Found", "None"] ∧
    placeholderRows[12]? = some ["Processing Method", "Unknown"] ∧
    placeholderRows[14]? = some ["Confidence Score", "Not available"] := by
  obtain ⟨h1, -, -, -, -, -, -, -, -, -, hd, hpm, -, hc⟩ :=
    csv_falsy_value_renders_placeholder falsyResult placeholderRows (by decide)
  exact ⟨h1 (Json.str "") (by decide) (by decide),
    hd (Json.num 0) (by decide) (by decide),
    hpm (Json.str "") (by decide) (by decide),
    hc (Json.num 0) (by decide) (by decide)⟩

/-- Core invariant of reachable states: the event loop is quiescent
(`loading` is false), a stored result implies a selected file (the file
only changes through `handleFileChange`, which clears the result), and
result and error are mutually exclusive. -/
theorem reachable_core (s : AppState) (h : Reachable s) :
    s.loading = false ∧
    (s.result.isSome = true → s.file.isSome = true) ∧
    ¬(s.result.isSome = true ∧ s.error.isSome = true) := by
  induction h with
  | init => simp [initState]
  | @step s0 s1 hr hstep ih =>
      cases hstep with
      | select f =>
          refine ⟨by simpa [handleFileChange] using ih.1, ?_, ?_⟩
          · simp [handleFileChange]
          · simp [handleFileChange]
      | method m =>
          exact ⟨by simpa [setMethod] using ih.1, by simpa [setMethod] using ih.2.1,
            by simpa [setMethod] using ih.2.2⟩
      | upload env o =>
          by_cases hf : s0.file.isSome = true
          · rw [handleUpload_file_settles s0 env o hf, settledState]
            cases tryBlock o with
            | ok data =>
                exact ⟨rfl, fun _ => by simpa [inflightState] using hf,
                  by simp [inflightState]⟩
            | error m => exact ⟨rfl, by simp [inflightState], by simp [inflightState]⟩
          · have hupl : (handleUpload s0 env o).1 = noFileState s0 := by
              simp [handleUpload, hf]
            rw [hupl]
            have hres : s0.result.isSome = false := by
              cases hres : s0.result.isSome with
              | false => rfl
              | true => exact absurd (ih.2.1 hres) hf
            exact ⟨by simpa [noFileState] using ih.1,
              by simp [noFileState, hres],
              by simp [noFileState, hres]⟩

/-- C2: in every reachable state, `result` and `error` are never both
present; `loading` is false in every quiescent state and true exactly in
the in-flight snapshot of a submit that actually issued a request (a
file was selected), and every exit path of `handleUpload` — precondition
failure, thrown error, or success — ends with `loading` false. -/
theorem result_error_exclusive_loading_scoped (s : AppState) (h : Reachable s) :
    ¬(s.result.isSome = true ∧ s.error.isSome = true) ∧
    s.loading = false ∧
    (∀ o : FetchOutcome,
      (uploadPhases s o).getLast?.map AppState.loading = some false) ∧
    (∀ o : FetchOutcome, ∀ p ∈ (uploadPhases s o).dropLast,
      p.loading = true ∧ s.file.isSome = true) := by
  obtain ⟨hload, hres, hexcl⟩ := reachable_core s h
  refine ⟨hexcl, hload, ?_, ?_⟩
  · intro o
    by_cases hf : s.file.isSome = true
    · simp only [uploadPhases, hf, if_true]
      simp [settledState]
      cases tryBlock o <;> simp
    · simp only [uploadPhases, hf, if_false, Bool.false_eq_true]
      simp [noFileState, hload]
  · intro o p hp
    by_cases hf : s.file.isSome = true
    · simp only [uploadPhases, hf, if_true] at hp
      simp at hp
      subst hp
      exact ⟨rfl, hf⟩
    · simp only [uploadPhases, hf, if_false, Bool.false_eq_true] at hp
      simp at hp

/-- Witness for C2 at the initial state. -/
theorem result_error_exclusive_loading_scoped_witness :
    ¬(initState.result.isSome = true ∧ initState.error.isSome = true) ∧
    initState.loading = false ∧
    (∀ o : FetchOutcome,
      (uploadPhases initState o).getLast?.map AppState.loading = some false) ∧
    (∀ o : FetchOutcome, ∀ p ∈ (uploadPhases initState o).dropLast,
      p.loading = true ∧ initState.file.isSome = true) :=
  result_error_exclusive_loading_scoped initState Reachable.init

/-! ## Round-trip of `JSON.parse` over `JSON.stringify(·, null, 2)` -/

/-- `skipWs` does not touch a non-whitespace head. -/
theorem skipWs_cons_of_not_ws {c : Char} (h : isWsC c = false) (r : List Char) :
    skipWs (c :: r) = c :: r := by
  simp [skipWs, h]

/-- `skipWs` drops an all-whitespace prefix. -/
theorem skipWs_append_of_ws {l : List Char} (r : List Char)
    (h : ∀ c ∈ l, isWsC c = true) :
    skipWs (l ++ r) = skipWs r := by
  induction l with
  | nil => simp
  | cons c cs ih =>
      have hc : isWsC c = true := h c (by simp)
      simp only [List.cons_append, skipWs, hc, if_true]
      exact ih (fun x hx => h x (by simp [hx]))

/-- `skipWs` is idempotent. -/
theorem skipWs_idem (l : List Char) : skipWs (skipWs l) = skipWs l := by
  induction l with
  | nil => simp [skipWs]
  | cons c cs ih =>
      by_cases hc : isWsC c = true
      · simp [skipWs, hc, ih]
      · simp only [Bool.not_eq_true] at hc
        rw [skipWs_cons_of_not_ws hc, skipWs_cons_of_not_ws hc]

/-- Every character of an indentation prefix is whitespace. -/
theorem indentStr_ws (d : Nat) : ∀ c ∈ (indentStr d).data, isWsC c = true := by
  intro c hc
  have : c = ' ' := List.eq_of_mem_replicate (by simpa [indentStr] using hc)
  simp [this, isWsC]

/-- `hexVal` inverts `hexDigitChar` below 16. -/
theorem hexVal_hexDigitChar : ∀ k < 16, hexVal (hexDigitChar k) = some k := by decide

/-- The string parser consumes a closing quote. -/
theorem parseStr_step_quote (rest : List Char) :
    parseStrChars ('"' :: rest) = some ([], rest) := by
  rw [parseStrChars.eq_def]
  simp

/-- The string parser decodes a named escape. -/
theorem parseStr_step_esc (e c2 : Char) (rest : List Char)
    (he : escDecode e = some c2) (hu : ¬ e = 'u') :
    parseStrChars ('\\' :: e :: rest) =
      (parseStrChars rest).map (fun p => (c2 :: p.1, p.2)) := by
  rw [parseStrChars.eq_def]
  simp [hu, he]

/-- The string parser decodes a `\u00XX` escape. -/
theorem parseStr_step_u (h1 h2 : Char) (a b : Nat) (rest : List Char)
    (ha : hexVal h1 = some a) (hb : hexVal h2 = some b) :
    parseStrChars ('\\' :: 'u' :: '0' :: '0' :: h1 :: h2 :: rest) =
      (parseStrChars rest).map
        (fun p => (Char.ofNat (((0 * 16 + 0) * 16 + a) * 16 + b) :: p.1, p.2)) := by
  have h0 : hexVal '0' = some 0 := by decide
  rw [parseStrChars.eq_def]
  simp [h0, ha, hb]

/-- The string parser copies an unescaped character. -/
theorem parseStr_step_raw (c : Char) (rest : List Char)
    (h1 : ¬ c = '"') (h2 : ¬ c = '\\') :
    parseStrChars (c :: rest) = (parseStrChars rest).map (fun p => (c :: p.1, p.2)) := by
  rw [parseStrChars.eq_def]
  simp [h1, h2]

/-- The string-body parser inverts the `JSON.stringify` escape encoding. -/
theorem parseStrChars_escList (cs : List Char) (rest : List Char) :
    parseStrChars (escList cs ++ ('"' :: rest)) = some (cs, rest) := by
  induction cs with
  | nil => simpa [escList] using parseStr_step_quote rest
  | cons c cs' ih =>
      show parseStrChars ((escC c ++ escList cs') ++ '"' :: rest) = _
      rw [List.append_assoc]
      by_cases h1 : c = '"'
      · subst h1
        rw [show escC '"' = ['\\', '"'] from by decide]
        simp only [List.cons_append, List.nil_append]
        rw [parseStr_step_esc '"' '"' _ (by decide) (by decide), ih]
        rfl
      · by_cases h2 : c = '\\'
        · subst h2
          rw [show escC '\\' = ['\\', '\\'] from by decide]
          simp only [List.cons_append, List.nil_append]
          rw [parseStr_step_esc '\\' '\\' _ (by decide) (by decide), ih]
          rfl
        · by_cases h3 : c = '\n'
          · subst h3
            rw [show escC '\n' = ['\\', 'n'] from by decide]
            simp only [List.cons_append, List.nil_append]
            rw [parseStr_step_esc 'n' '\n' _ (by decide) (by decide), ih]
            rfl
          · by_cases h4 : c = '\r'
            · subst h4
              rw [show escC '\r' = ['\\', 'r'] from by decide]
              simp only [List.cons_append, List.nil_append]
              rw [parseStr_step_esc 'r' '\r' _ (by decide) (by decide), ih]
              rfl
            · by_cases h5 : c = '\t'
              · subst h5
                rw [show escC '\t' = ['\\', 't'] from by decide]
                simp only [List.cons_append, List.nil_append]
                rw [parseStr_step_esc 't' '\t' _ (by decide) (by decide), ih]
                rfl
              · by_cases h6 : c = '\x08'
                · subst h6
                  rw [show escC '\x08' = ['\\', 'b'] from by decide]
                  simp only [List.cons_append, List.nil_append]
                  rw [parseStr_step_esc 'b' '\x08' _ (by decide) (by decide), ih]
                  rfl
                · by_cases h7 : c = '\x0c'
                  · subst h7
                    rw [show escC '\x0c' = ['\\', 'f'] from by decide]
                    simp only [List.cons_append, List.nil_append]
                    rw [parseStr_step_esc 'f' '\x0c' _ (by decide) (by decide), ih]
                    rfl
                  · by_cases h8 : c.toNat < 32
                    · have hdiv : c.toNat / 16 < 16 := by omega
                      have hmod : c.toNat % 16 < 16 := Nat.mod_lt _ (by omega)
                      have hesc : escC c = ['\\', 'u', '0', '0',
                          hexDigitChar (c.toNat / 16), hexDigitChar (c.toNat % 16)] := by
                        simp [escC, h1, h2, h3, h4, h5, h6, h7, h8]
                      rw [hesc]
                      simp only [List.cons_append, List.nil_append]
                      rw [parseStr_step_u _ _ _ _ _
                        (hexVal_hexDigitChar _ hdiv) (hexVal_hexDigitChar _ hmod), ih]
                      have harith : ((0 * 16 + 0) * 16 + c.toNat / 16) * 16 + c.toNat % 16 =
                          c.toNat := by omega
                      rw [harith, Char.ofNat_toNat]
                      rfl
                    · have hesc : escC c = [c] := by
                        simp [escC, h1, h2, h3, h4, h5, h6, h7, h8]
                      rw [hesc]
                      simp only [List.cons_append, List.nil_append]
                      rw [parseStr_step_raw c _ h1 h2, ih]
                      rfl

/-- `digitsVal` stops at a non-digit head. -/
theorem digitsVal_stop (l : List Char) (acc : Nat) (h : noLeadDigit l = true) :
    digitsVal l acc = (acc, l) := by
  cases l with
  | nil => rfl
  | cons c r =>
      have : isDigitC c = false := by simpa [noLeadDigit] using h
      simp [digitsVal, this]

/-- Facts about a digit character `Char.ofNat (48 + k)`. -/
theorem digit_char_facts : ∀ k < 10,
    isDigitC (Char.ofNat (48 + k)) = true ∧
    (Char.ofNat (48 + k)).toNat = 48 + k ∧
    ¬ Char.ofNat (48 + k) = '-' := by decide

/-- All characters emitted by `natDigitsF` are digits. -/
theorem natDigitsF_all_digits : ∀ fuel n, n < fuel →
    ∀ c ∈ natDigitsF fuel n, isDigitC c = true := by
  intro fuel
  induction fuel with
  | zero => intro n h; omega
  | succ fuel ih =>
      intro n hn c hc
      by_cases h10 : n < 10
      · simp only [natDigitsF, h10, if_true, List.mem_singleton] at hc
        subst hc
        exact (digit_char_facts n h10).1
      · simp only [natDigitsF, h10, if_false, List.mem_append, List.mem_singleton] at hc
        rcases hc with hc | hc
        · exact ih (n / 10) (by omega) c hc
        · subst hc
          exact (digit_char_facts (n % 10) (by omega)).1

/-- `natDigitsF` is non-empty given enough fuel. -/
theorem natDigitsF_ne_nil : ∀ fuel n, n < fuel → natDigitsF fuel n ≠ [] := by
  intro fuel n h
  cases fuel with
  | zero => omega
  | succ fuel =>
      by_cases h10 : n < 10
      · simp [natDigitsF, h10]
      · simp [natDigitsF, h10]

/-- Consuming the digits of `n` shifts the accumulator by `n`. -/
theorem digitsVal_natDigitsF : ∀ fuel n acc rest, n < fuel →
    digitsVal (natDigitsF fuel n ++ rest) acc =
      digitsVal rest (acc * 10 ^ (natDigitsF fuel n).length + n) := by
  intro fuel
  induction fuel with
  | zero => intro n acc rest h; omega
  | succ fuel ih =>
      intro n acc rest hn
      by_cases h10 : n < 10
      · obtain ⟨hdig, htn, -⟩ := digit_char_facts n h10
        simp only [natDigitsF, h10, if_true, List.singleton_append, List.length_singleton]
        simp [digitsVal, hdig, htn, Nat.pow_one]
      · obtain ⟨hdig, htn, -⟩ := digit_char_facts (n % 10) (by omega)
        simp only [natDigitsF, h10, if_false]
        rw [List.append_assoc, List.singleton_append,
          ih (n / 10) acc (Char.ofNat (48 + n % 10) :: rest) (by omega)]
        simp only [digitsVal, hdig, if_true, htn]
        rw [List.length_append, List.length_singleton]
        congr 1
        have hp : 10 ^ ((natDigitsF fuel (n / 10)).length + 1) =
            10 ^ (natDigitsF fuel (n / 10)).length * 10 := pow_succ 10 _
        have hmul : acc * (10 ^ (natDigitsF fuel (n / 10)).length * 10) =
            acc * 10 ^ (natDigitsF fuel (n / 10)).length * 10 := by ring
        rw [hp, hmul]
        omega

/-- The digit parser inverts `natDigits`. -/
theorem parseNatNum_natDigits (n : Nat) (rest : List Char)
    (h : noLeadDigit rest = true) :
    parseNatNum (natDigits n ++ rest) = some (n, rest) := by
  have hlt : n < n + 1 := by omega
  have hne := natDigitsF_ne_nil (n + 1) n hlt
  cases hds : natDigitsF (n + 1) n with
  | nil => exact absurd hds hne
  | cons c ds =>
      have hcdig : isDigitC c = true :=
        natDigitsF_all_digits (n + 1) n hlt c (by rw [hds]; simp)
      have hfull := digitsVal_natDigitsF (n + 1) n 0 rest hlt
      rw [hds] at hfull
      have hone : digitsVal ((c :: ds) ++ rest) 0 =
          digitsVal (ds ++ rest) (0 * 10 + (c.toNat - 48)) := by
        simp [digitsVal, hcdig]
      rw [natDigits, hds]
      have hstep : parseNatNum ((c :: ds) ++ rest) =
          some (digitsVal (ds ++ rest) (c.toNat - 48)) := by
        simp [parseNatNum, hcdig]
      rw [hstep]
      have hres : digitsVal (ds ++ rest) (c.toNat - 48) = (n, rest) := by
        have h2 : digitsVal (ds ++ rest) (0 * 10 + (c.toNat - 48)) =
            digitsVal rest (0 * 10 ^ (c :: ds).length + n) := by
          rw [← hone, hfull]
        simpa [digitsVal_stop rest _ h] using h2
      rw [hres]

/-- A digit head is not a minus sign. -/
theorem digit_head_ne_minus {c : Char} (h : isDigitC c = true) : ¬ c = '-' := by
  intro hc
  subst hc
  simp [isDigitC] at h

/-- The signed-number parser inverts `intStr`. -/
theorem parseIntNum_intStr (n : Int) (rest : List Char)
    (h : noLeadDigit rest = true) :
    parseIntNum ((intStr n).data ++ rest) = some (n, rest) := by
  by_cases hneg : n < 0
  · have hdata : (intStr n).data = '-' :: natDigits n.natAbs := by
      simp [intStr, hneg]
    rw [hdata]
    simp only [List.cons_append, parseIntNum, if_pos rfl]
    rw [parseNatNum_natDigits n.natAbs rest h]
    simp only [Option.map_some']
    have : -((n.natAbs : Nat) : Int) = n := by omega
    rw [this]
    simp
  · have hdata : (intStr n).data = natDigits n.natAbs := by
      simp [intStr, hneg]
    rw [hdata]
    have hlt : n.natAbs < n.natAbs + 1 := by omega
    have hne := natDigitsF_ne_nil (n.natAbs + 1) n.natAbs hlt
    cases hds : natDigits n.natAbs with
    | nil => exact absurd hds hne
    | cons c ds =>
        have hcdig : isDigitC c = true :=
          natDigitsF_all_digits (n.natAbs + 1) n.natAbs hlt c (by
            rw [show natDigitsF (n.natAbs + 1) n.natAbs = c :: ds from hds]
            simp)
        rw [List.cons_append, parseIntNum,
          if_neg (digit_head_ne_minus hcdig), ← List.cons_append, ← hds,
          parseNatNum_natDigits n.natAbs rest h]
        simp only [Option.map_some']
        have : ((n.natAbs : Nat) : Int) = n := by omega
        rw [this]

/-- A whitespace character is not a digit. -/
theorem ws_not_digit {c : Char} (h : isWsC c = true) : isDigitC c = false := by
  simp only [isWsC, Bool.or_eq_true, decide_eq_true_eq] at h
  rcases h with ((rfl | rfl) | rfl) | rfl <;> decide

/-- A digit differs from any non-digit character. -/
theorem digit_ne {c : Char} (h : isDigitC c = true) (d : Char)
    (hd : isDigitC d = false) : ¬ c = d := by
  intro hc
  subst hc
  rw [h] at hd
  cases hd

/-- A digit is not whitespace. -/
theorem digit_not_ws {c : Char} (h : isDigitC c = true) : isWsC c = false := by
  cases hws : isWsC c with
  | false => rfl
  | true => rw [ws_not_digit hws] at h; cases h

/-- The rendered text of an integer starts with a minus sign or a digit. -/
theorem intStr_head (n : Int) : ∃ c cs, (intStr n).data = c :: cs ∧
    (c = '-' ∨ isDigitC c = true) := by
  by_cases hneg : n < 0
  · refine ⟨'-', natDigits n.natAbs, ?_, Or.inl rfl⟩
    simp [intStr, hneg]
  · have hlt : n.natAbs < n.natAbs + 1 := by omega
    have hne := natDigitsF_ne_nil (n.natAbs + 1) n.natAbs hlt
    cases hds : natDigits n.natAbs with
    | nil => exact absurd hds hne
    | cons c ds =>
        refine ⟨c, ds, ?_, Or.inr ?_⟩
        · simp [intStr, hneg, hds]
        · exact natDigitsF_all_digits (n.natAbs + 1) n.natAbs hlt c (by
            rw [show natDigitsF (n.natAbs + 1) n.natAbs = c :: ds from hds]
            simp)

/-- Rebuilding a string from its character data. -/
theorem string_mk_data (s : String) : String.mk s.data = s := rfl

/-- If the input does not start with a digit after an all-whitespace
prefix, the combined input has no leading digit. -/
theorem noLeadDigit_ws_append (ws : List Char) (c : Char) (r : List Char)
    (hws : ∀ x ∈ ws, isWsC x = true) (hc : isDigitC c = false) :
    noLeadDigit (ws ++ c :: r) = true := by
  cases ws with
  | nil => simp [noLeadDigit, hc]
  | cons w ws' =>
      have : isWsC w = true := hws w (by simp)
      simp [noLeadDigit, ws_not_digit this]

/-- `parseVal` is invariant under stripping leading whitespace. -/
theorem parseVal_skipWs (fuel : Nat) (cs : List Char) :
    parseVal fuel (skipWs cs) = parseVal fuel cs := by
  cases fuel with
  | zero => rfl
  | succ f =>
      rw [parseVal.eq_def]
      conv_rhs => rw [parseVal.eq_def]
      simp only [skipWs_idem]

/-- `parseItems` is invariant under stripping leading whitespace. -/
theorem parseItems_skipWs (fuel : Nat) (cs : List Char) :
    parseItems fuel (skipWs cs) = parseItems fuel cs := by
  cases fuel with
  | zero => rfl
  | succ f =>
      rw [parseItems.eq_def]
      conv_rhs => rw [parseItems.eq_def]
      simp only [parseVal_skipWs]

/-- `parseMembers` is invariant under stripping leading whitespace. -/
theorem parseMembers_skipWs (fuel : Nat) (cs : List Char) :
    parseMembers fuel (skipWs cs) = parseMembers fuel cs := by
  cases fuel with
  | zero => rfl
  | succ f =>
      rw [parseMembers.eq_def]
      conv_rhs => rw [parseMembers.eq_def]
      simp only [skipWs_idem]

/-- Assigning a fresh key appends it. -/
theorem setKey_append_of_fresh (acc : List (String × Json)) (k : String) (v : Json)
    (h : ∀ p ∈ acc, ¬ p.1 = k) : setKey acc k v = acc ++ [(k, v)] := by
  induction acc with
  | nil => rfl
  | cons q rest ih =>
      cases q with
      | mk qk qv =>
          have hq : ¬ qk = k := h (qk, qv) (by simp)
          simp only [setKey, hq, if_false, List.cons_append]
          rw [ih (fun p hp => h p (by simp [hp]))]

/-- Folding JS assignments over pairs with distinct keys reproduces the
pair list. -/
theorem foldl_setKey_of_distinct :
    ∀ (ps acc : List (String × Json)),
      distinctKeys (ps.map Prod.fst) = true →
      (∀ p ∈ ps, ∀ q ∈ acc, ¬ q.1 = p.1) →
      List.foldl (fun a p => setKey a p.1 p.2) acc ps = acc ++ ps := by
  intro ps
  induction ps with
  | nil => intro acc _ _; simp
  | cons p rest ih =>
      intro acc hdist hdisj
      have h2 := hdist
      simp only [List.map_cons, distinctKeys, Bool.and_eq_true] at h2
      have hnot : (rest.map Prod.fst).contains p.1 = false := by
        simpa using h2.1
      have hdist' : distinctKeys (rest.map Prod.fst) = true := h2.2
      simp only [List.foldl_cons]
      rw [setKey_append_of_fresh acc p.1 p.2 (fun q hq => hdisj p (by simp) q hq)]
      rw [ih (acc ++ [(p.1, p.2)]) hdist' ?_]
      · simp
      · intro q hq r hr
        rcases List.mem_append.mp hr with hr | hr
        · exact hdisj q (by simp [hq]) r hr
        · have hrp : r = (p.1, p.2) := by simpa using hr
          subst hrp
          intro hcontra
          have hmem : q.1 ∈ rest.map Prod.fst := List.mem_map_of_mem Prod.fst hq
          rw [← hcontra] at hmem
          have hnotmem : p.1 ∉ rest.map Prod.fst := by simpa using hnot
          exact hnotmem hmem

/-- `dedupPairs` is the identity on duplicate-free member lists. -/
theorem dedupPairs_of_distinct (ps : List (String × Json))
    (h : distinctKeys (ps.map Prod.fst) = true) : dedupPairs ps = ps := by
  have := foldl_setKey_of_distinct ps [] h (by simp)
  simpa [dedupPairs] using this

/-- Length of a rebuilt string. -/
theorem string_mk_length (l : List Char) : (String.mk l).length = l.length := rfl

/-- A quoted string literal has at least the two quote characters. -/
theorem quoteStr_len_ge (s : String) : 2 ≤ (quoteStr s).length := by
  rw [quoteStr, string_mk_length]
  simp

/-- The rendered integer is non-empty. -/
theorem intStr_len_pos (n : Int) : 1 ≤ (intStr n).length := by
  obtain ⟨c, cs, hdata, -⟩ := intStr_head n
  have : (intStr n).length = (intStr n).data.length := rfl
  rw [this, hdata]
  simp

/-- Length of the indentation prefix. -/
theorem indentStr_length (d : Nat) : (indentStr d).length = 2 * d := by
  rw [indentStr, string_mk_length]
  simp

mutual
/-- The parser fuel needed for a value is at most its rendered length. -/
theorem needFuel_le_len : ∀ (v : Json) (d : Nat), needFuel v ≤ (stringifyAt d v).length
  | Json.null, d => by simp only [needFuel, stringifyAt]; decide
  | Json.bool b, d => by cases b <;> (simp only [needFuel, stringifyAt]; decide)
  | Json.num n, d => by
      have := intStr_len_pos n
      simp only [needFuel, stringifyAt]
      omega
  | Json.str s, d => by
      have := quoteStr_len_ge s
      simp only [needFuel, stringifyAt]
      omega
  | Json.arr [], d => by simp only [needFuel, needFuelItems, stringifyAt]; decide
  | Json.arr (e :: es), d => by
      have hit := needFuelItems_le_len (e :: es) (d + 1) (by omega) (by simp)
      simp only [needFuel, stringifyAt, String.length_append]
      have h1 : ("[\n" : String).length = 2 := rfl
      have h2 : ("\n" : String).length = 1 := rfl
      have h3 : ("]" : String).length = 1 := rfl
      rw [h1, h2, h3, indentStr_length]
      omega
  | Json.obj [], d => by simp only [needFuel, needFuelMembers, stringifyAt]; decide
  | Json.obj (p :: ps), d => by
      have hit := needFuelMembers_le_len (p :: ps) (d + 1) (by omega) (by simp)
      simp only [needFuel, stringifyAt, String.length_append]
      have h1 : ("\x7b\n" : String).length = 2 := rfl
      have h2 : ("\n" : String).length = 1 := rfl
      have h3 : ("\x7d" : String).length = 1 := rfl
      rw [h1, h2, h3, indentStr_length]
      omega

/-- The parser fuel needed for items is at most their rendered length. -/
theorem needFuelItems_le_len : ∀ (es : List Json) (d : Nat), 1 ≤ d → es ≠ [] →
    needFuelItems es ≤ (itemsStr d es).length
  | [], _, _, h => absurd rfl h
  | [e], d, hd, _ => by
      have hv := needFuel_le_len e d
      simp only [needFuelItems, itemsStr, String.length_append, indentStr_length]
      omega
  | e :: e2 :: rest, d, hd, _ => by
      have hv := needFuel_le_len e d
      have hit := needFuelItems_le_len (e2 :: rest) d hd (by simp)
      simp only [needFuelItems] at hit
      simp only [needFuelItems, itemsStr, String.length_append, indentStr_length]
      have h2 : (",\n" : String).length = 2 := rfl
      rw [h2]
      omega

/-- The parser fuel needed for members is at most their rendered length. -/
theorem needFuelMembers_le_len : ∀ (ps : List (String × Json)) (d : Nat), 1 ≤ d →
    ps ≠ [] → needFuelMembers ps ≤ (membersStr d ps).length
  | [], _, _, h => absurd rfl h
  | [(k, v)], d, hd, _ => by
      have hv := needFuel_le_len v d
      have hq := quoteStr_len_ge k
      simp only [needFuelMembers, membersStr, String.length_append, indentStr_length]
      have h2 : (": " : String).length = 2 := rfl
      rw [h2]
      omega
  | (k, v) :: p2 :: rest, d, hd, _ => by
      have hv := needFuel_le_len v d
      have hq := quoteStr_len_ge k
      have hit := needFuelMembers_le_len (p2 :: rest) d hd (by simp)
      simp only [needFuelMembers] at hit
      simp only [needFuelMembers, membersStr, String.length_append, indentStr_length]
      have h2 : (": " : String).length = 2 := rfl
      have h3 : (",\n" : String).length = 2 := rfl
      rw [h2, h3]
      omega
end

/-- `parseVal` consumes the literal `null`. -/
theorem parseVal_step_null (f : Nat) (rest : List Char) :
    parseVal (f + 1) ('n' :: 'u' :: 'l' :: 'l' :: rest) = some (Json.null, rest) := by
  rw [parseVal.eq_def]
  have hsk : skipWs ('n' :: 'u' :: 'l' :: 'l' :: rest) = 'n' :: 'u' :: 'l' :: 'l' :: rest :=
    skipWs_cons_of_not_ws (by decide) _
  simp [hsk]

/-- `parseVal` consumes the literal `true`. -/
theorem parseVal_step_true (f : Nat) (rest : List Char) :
    parseVal (f + 1) ('t' :: 'r' :: 'u' :: 'e' :: rest) = some (Json.bool true, rest) := by
  rw [parseVal.eq_def]
  have hsk : skipWs ('t' :: 'r' :: 'u' :: 'e' :: rest) = 't' :: 'r' :: 'u' :: 'e' :: rest :=
    skipWs_cons_of_not_ws (by decide) _
  simp [hsk]

/-- `parseVal` consumes the literal `false`. -/
theorem parseVal_step_false (f : Nat) (rest : List Char) :
    parseVal (f + 1) ('f' :: 'a' :: 'l' :: 's' :: 'e' :: rest) =
      some (Json.bool false, rest) := by
  rw [parseVal.eq_def]
  have hsk : skipWs ('f' :: 'a' :: 'l' :: 's' :: 'e' :: rest) =
      'f' :: 'a' :: 'l' :: 's' :: 'e' :: rest :=
    skipWs_cons_of_not_ws (by decide) _
  simp [hsk]

/-- `parseVal` enters the string parser at an opening quote. -/
theorem parseVal_step_str (f : Nat) (rest : List Char) :
    parseVal (f + 1) ('"' :: rest) =
      (parseStrChars rest).map (fun p => (Json.str (String.mk p.1), p.2)) := by
  rw [parseVal.eq_def]
  have hsk : skipWs ('"' :: rest) = '"' :: rest :=
    skipWs_cons_of_not_ws (by decide) _
  simp [hsk]

/-- `parseVal` recognizes an empty array. -/
theorem parseVal_step_arr_empty (f : Nat) (rest r : List Char)
    (h : skipWs rest = ']' :: r) :
    parseVal (f + 1) ('[' :: rest) = some (Json.arr [], r) := by
  rw [parseVal.eq_def]
  have hsk : skipWs ('[' :: rest) = '[' :: rest :=
    skipWs_cons_of_not_ws (by decide) _
  simp [hsk, h]

/-- `parseVal` enters the item parser at a non-empty array. -/
theorem parseVal_step_arr (f : Nat) (rest : List Char) (c0 : Char) (cs0 : List Char)
    (h : skipWs rest = c0 :: cs0) (hne : ¬ c0 = ']') :
    parseVal (f + 1) ('[' :: rest) =
      (parseItems f (c0 :: cs0)).map (fun p => (Json.arr p.1, p.2)) := by
  rw [parseVal.eq_def]
  have hsk : skipWs ('[' :: rest) = '[' :: rest :=
    skipWs_cons_of_not_ws (by decide) _
  simp [hsk, h, hne]

/-- `parseVal` recognizes an empty object. -/
theorem parseVal_step_obj_empty (f : Nat) (rest r : List Char)
    (h : skipWs rest = '\x7d' :: r) :
    parseVal (f + 1) ('\x7b' :: rest) = some (Json.obj [], r) := by
  rw [parseVal.eq_def]
  have hsk : skipWs ('\x7b' :: rest) = '\x7b' :: rest :=
    skipWs_cons_of_not_ws (by decide) _
  simp [hsk, h]

/-- `parseVal` enters the member parser at a non-empty object. -/
theorem parseVal_step_obj (f : Nat) (rest : List Char) (c0 : Char) (cs0 : List Char)
    (h : skipWs rest = c0 :: cs0) (hne : ¬ c0 = '\x7d') :
    parseVal (f + 1) ('\x7b' :: rest) =
      (parseMembers f (c0 :: cs0)).map (fun p => (Json.obj (dedupPairs p.1), p.2)) := by
  rw [parseVal.eq_def]
  have hsk : skipWs ('\x7b' :: rest) = '\x7b' :: rest :=
    skipWs_cons_of_not_ws (by decide) _
  simp [hsk, h, hne]

/-- `parseVal` falls through to the number parser on a sign or digit. -/
theorem parseVal_step_num (f : Nat) (c : Char) (rest : List Char)
    (hws : isWsC c = false) (h1 : ¬ c = 'n') (h2 : ¬ c = 't') (h3 : ¬ c = 'f')
    (h4 : ¬ c = '"') (h5 : ¬ c = '[') (h6 : ¬ c = '\x7b') :
    parseVal (f + 1) (c :: rest) =
      (parseIntNum (c :: rest)).map (fun p => (Json.num p.1, p.2)) := by
  rw [parseVal.eq_def]
  have hsk : skipWs (c :: rest) = c :: rest := skipWs_cons_of_not_ws hws rest
  simp [hsk, h1, h2, h3, h4, h5, h6]

/-- The rendering of any value starts with a non-whitespace character
that is neither a closing bracket, a closing brace, nor a comma. -/
theorem stringifyAt_head (d : Nat) (v : Json) :
    ∃ c cs, (stringifyAt d v).data = c :: cs ∧ isWsC c = false ∧
      ¬ c = ']' ∧ ¬ c = '\x7d' := by
  cases v with
  | null => exact ⟨'n', ['u', 'l', 'l'], by simp [stringifyAt], by decide, by decide, by decide⟩
  | bool b =>
      cases b with
      | true => exact ⟨'t', ['r', 'u', 'e'], by simp [stringifyAt], by decide, by decide, by decide⟩
      | false =>
          exact ⟨'f', ['a', 'l', 's', 'e'], by simp [stringifyAt], by decide, by decide, by decide⟩
  | num n =>
      obtain ⟨c, cs, hdata, hc⟩ := intStr_head n
      refine ⟨c, cs, by simp [stringifyAt, hdata], ?_, ?_, ?_⟩
      · rcases hc with rfl | hdig
        · decide
        · exact digit_not_ws hdig
      · rcases hc with rfl | hdig
        · decide
        · exact digit_ne hdig ']' (by decide)
      · rcases hc with rfl | hdig
        · decide
        · exact digit_ne hdig '\x7d' (by decide)
  | str s =>
      refine ⟨'"', escList s.data ++ ['"'], ?_, by decide, by decide, by decide⟩
      simp only [stringifyAt]
      rfl
  | arr es =>
      cases es with
      | nil => exact ⟨'[', [']'], by simp [stringifyAt], by decide, by decide, by decide⟩
      | cons e es' =>
          refine ⟨'[', '\n' :: ((itemsStr (d + 1) (e :: es') ++ "\n" ++ indentStr d ++ "]").data),
            ?_, by decide, by decide, by decide⟩
          simp only [stringifyAt]
          simp [String.data_append]
  | obj ps =>
      cases ps with
      | nil => exact ⟨'\x7b', ['\x7d'], by simp [stringifyAt], by decide, by decide, by decide⟩
      | cons p ps' =>
          refine ⟨'\x7b', '\n' :: ((membersStr (d + 1) (p :: ps') ++ "\n" ++ indentStr d ++ "\x7d").data),
            ?_, by decide, by decide, by decide⟩
          simp only [stringifyAt]
          simp [String.data_append]

/-- Decomposition of rendered items: indentation, the first value, then
either nothing or a comma, newline and the remaining items. -/
theorem itemsStr_data (d : Nat) (e : Json) (es : List Json) :
    ∃ T, (itemsStr d (e :: es)).data =
      (indentStr d).data ++ ((stringifyAt d e).data ++ T) ∧
      ((es = [] ∧ T = []) ∨
        (∃ e2 es', es = e2 :: es' ∧ T = ',' :: '\n' :: (itemsStr d (e2 :: es')).data)) := by
  cases es with
  | nil =>
      refine ⟨[], ?_, Or.inl ⟨rfl, rfl⟩⟩
      simp [itemsStr, String.data_append]
  | cons e2 es' =>
      refine ⟨',' :: '\n' :: (itemsStr d (e2 :: es')).data, ?_, Or.inr ⟨e2, es', rfl, rfl⟩⟩
      simp only [itemsStr, String.data_append]
      simp [List.append_assoc]

/-- Decomposition of rendered members: indentation, quoted key, colon and
space, the value, then either nothing or a comma, newline and the
remaining members. -/
theorem membersStr_data (d : Nat) (k : String) (v : Json) (ps : List (String × Json)) :
    ∃ T, (membersStr d ((k, v) :: ps)).data =
      (indentStr d).data ++ ((quoteStr k).data ++ (':' :: ' ' :: ((stringifyAt d v).data ++ T))) ∧
      ((ps = [] ∧ T = []) ∨
        (∃ p2 ps', ps = p2 :: ps' ∧ T = ',' :: '\n' :: (membersStr d (p2 :: ps')).data)) := by
  cases ps with
  | nil =>
      refine ⟨[], ?_, Or.inl ⟨rfl, rfl⟩⟩
      simp only [membersStr, String.data_append]
      simp
  | cons p2 ps' =>
      refine ⟨',' :: '\n' :: (membersStr d (p2 :: ps')).data, ?_, Or.inr ⟨p2, ps', rfl, rfl⟩⟩
      simp only [membersStr, String.data_append]
      simp

/-- Skipping whitespace before a rendered value lands on the value. -/
theorem skipWs_ws_cons {c : Char} (h : isWsC c = true) (l : List Char) :
    skipWs (c :: l) = skipWs l := by
  simp [skipWs, h]

/-- `skipWs` over a whitespace prefix followed by a rendered value. -/
theorem skipWs_into_value (d : Nat) (e : Json) (pre suf : List Char)
    (hpre : ∀ c ∈ pre, isWsC c = true) :
    skipWs (pre ++ ((stringifyAt d e).data ++ suf)) = (stringifyAt d e).data ++ suf := by
  obtain ⟨c0, cs0, hh, hws, -, -⟩ := stringifyAt_head d e
  rw [skipWs_append_of_ws _ hpre, hh, List.cons_append, skipWs_cons_of_not_ws hws,
    ← List.cons_append, ← hh]

/-- One step of `parseItems`. -/
theorem parseItems_step (f : Nat) (cs : List Char) :
    parseItems (f + 1) cs =
      (match parseVal f cs with
       | none => none
       | some (v, r1) =>
         match skipWs r1 with
         | ',' :: r2 => (parseItems f r2).map (fun p => (v :: p.1, p.2))
         | ']' :: r2 => some ([v], r2)
         | _ => none) := by
  rw [parseItems.eq_def]

/-- One step of `parseMembers`. -/
theorem parseMembers_step (f : Nat) (cs : List Char) :
    parseMembers (f + 1) cs =
      (match skipWs cs with
       | '"' :: r0 =>
         match parseStrChars r0 with
         | none => none
         | some (k, r1) =>
           match skipWs r1 with
           | ':' :: r2 =>
             match parseVal f r2 with
             | none => none
             | some (v, r3) =>
               match skipWs r3 with
               | ',' :: r4 => (parseMembers f r4).map (fun p => ((String.mk k, v) :: p.1, p.2))
               | '\x7d' :: r4 => some ([(String.mk k, v)], r4)
               | _ => none
           | _ => none
       | _ => none) := by
  rw [parseMembers.eq_def]

mutual
theorem parseVal_emit : ∀ (v : Json) (fuel d : Nat) (rest : List Char),
    wfJson v = true → needFuel v ≤ fuel → noLeadDigit rest = true →
    parseVal fuel ((stringifyAt d v).data ++ rest) = some (v, rest)
  | Json.null, fuel, d, rest, _, hfu, _ => by
      cases fuel with
      | zero => simp [needFuel] at hfu
      | succ f =>
          rw [show (stringifyAt d Json.null) = "null" from by simp [stringifyAt]]
          rw [show ("null" : String).data = ['n', 'u', 'l', 'l'] from rfl]
          simp only [List.cons_append, List.nil_append]
          exact parseVal_step_null f rest
  | Json.bool true, fuel, d, rest, _, hfu, _ => by
      cases fuel with
      | zero => simp [needFuel] at hfu
      | succ f =>
          rw [show (stringifyAt d (Json.bool true)) = "true" from by simp [stringifyAt]]
          rw [show ("true" : String).data = ['t', 'r', 'u', 'e'] from rfl]
          simp only [List.cons_append, List.nil_append]
          exact parseVal_step_true f rest
  | Json.bool false, fuel, d, rest, _, hfu, _ => by
      cases fuel with
      | zero => simp [needFuel] at hfu
      | succ f =>
          rw [show (stringifyAt d (Json.bool false)) = "false" from by simp [stringifyAt]]
          rw [show ("false" : String).data = ['f', 'a', 'l', 's', 'e'] from rfl]
          simp only [List.cons_append, List.nil_append]
          exact parseVal_step_false f rest
  | Json.num n, fuel, d, rest, _, hfu, hrest => by
      cases fuel with
      | zero => simp [needFuel] at hfu
      | succ f =>
          rw [show (stringifyAt d (Json.num n)) = intStr n from by simp [stringifyAt]]
          obtain ⟨c, cs, hdata, hc⟩ := intStr_head n
          rw [hdata]
          simp only [List.cons_append]
          have hfin : parseIntNum (c :: (cs ++ rest)) = some (n, rest) := by
            have hx := parseIntNum_intStr n rest hrest
            rw [hdata] at hx
            simpa [List.cons_append] using hx
          rcases hc with rfl | hdig
          · rw [parseVal_step_num f '-' _ (by decide) (by decide) (by decide) (by decide)
              (by decide) (by decide) (by decide), hfin]
            rfl
          · rw [parseVal_step_num f c _ (digit_not_ws hdig) (digit_ne hdig 'n' (by decide))
              (digit_ne hdig 't' (by decide)) (digit_ne hdig 'f' (by decide))
              (digit_ne hdig '"' (by decide)) (digit_ne hdig '[' (by decide))
              (digit_ne hdig '\x7b' (by decide)), hfin]
            rfl
  | Json.str s, fuel, d, rest, _, hfu, _ => by
      cases fuel with
      | zero => simp [needFuel] at hfu
      | succ f =>
          rw [show (stringifyAt d (Json.str s)) = quoteStr s from by simp [stringifyAt]]
          rw [show (quoteStr s).data = '"' :: (escList s.data ++ ['"']) from rfl]
          simp only [List.cons_append]
          rw [parseVal_step_str, List.append_assoc,
            show (['"'] ++ rest) = '"' :: rest from rfl, parseStrChars_escList]
          simp [string_mk_data]
  | Json.arr [], fuel, d, rest, _, hfu, _ => by
      cases fuel with
      | zero => simp [needFuel] at hfu
      | succ f =>
          rw [show (stringifyAt d (Json.arr [])) = "[]" from by simp [stringifyAt]]
          rw [show ("[]" : String).data = ['[', ']'] from rfl]
          simp only [List.cons_append, List.nil_append]
          exact parseVal_step_arr_empty f _ rest (skipWs_cons_of_not_ws (by decide) _)
  | Json.arr (e :: es), fuel, d, rest, hwf, hfu, hrest => by
      cases fuel with
      | zero => simp [needFuel] at hfu
      | succ f =>
          have hwf' : wfList (e :: es) = true := by simpa [wfJson] using hwf
          have hfu' : needFuelItems (e :: es) ≤ f := by
            simp only [needFuel] at hfu
            omega
          have hinput : (stringifyAt d (Json.arr (e :: es))).data ++ rest =
              '[' :: ('\n' :: ((itemsStr (d + 1) (e :: es)).data ++
                ('\n' :: ((indentStr d).data ++ (']' :: rest))))) := by
            rw [show stringifyAt d (Json.arr (e :: es)) =
              "[\n" ++ itemsStr (d + 1) (e :: es) ++ "\n" ++ indentStr d ++ "]" from by
                simp [stringifyAt]]
            simp only [String.data_append]
            simp [List.append_assoc]
          rw [hinput]
          obtain ⟨T, hT, hTalt⟩ := itemsStr_data (d + 1) e es
          obtain ⟨c0, cs0, hhead, hc0ws, hc0b, hc0c⟩ := stringifyAt_head (d + 1) e
          have hpre : ∀ c ∈ ('\n' :: (indentStr (d + 1)).data), isWsC c = true := by
            intro c hc
            rcases List.mem_cons.mp hc with rfl | hc
            · decide
            · exact indentStr_ws (d + 1) c hc
          have hre : '\n' :: ((itemsStr (d + 1) (e :: es)).data ++
              ('\n' :: ((indentStr d).data ++ (']' :: rest)))) =
              ('\n' :: (indentStr (d + 1)).data) ++ ((stringifyAt (d + 1) e).data ++
                (T ++ ('\n' :: ((indentStr d).data ++ (']' :: rest))))) := by
            rw [hT]
            simp [List.append_assoc]
          have htail : skipWs ('\n' :: ((itemsStr (d + 1) (e :: es)).data ++
              ('\n' :: ((indentStr d).data ++ (']' :: rest))))) =
              c0 :: (cs0 ++ (T ++ ('\n' :: ((indentStr d).data ++ (']' :: rest))))) := by
            rw [hre, skipWs_into_value (d + 1) e _ _ hpre, hhead]
            simp [List.append_assoc]
          rw [parseVal_step_arr f _ c0 _ htail hc0b]
          have hback : c0 :: (cs0 ++ (T ++ ('\n' :: ((indentStr d).data ++ (']' :: rest))))) =
              (stringifyAt (d + 1) e).data ++
                (T ++ ('\n' :: ((indentStr d).data ++ (']' :: rest)))) := by
            rw [hhead]
            simp
          rw [hback]
          have hitems : parseItems f ((stringifyAt (d + 1) e).data ++
              (T ++ ('\n' :: ((indentStr d).data ++ (']' :: rest))))) =
              parseItems f ((itemsStr (d + 1) (e :: es)).data ++
                (('\n' :: (indentStr d).data) ++ (']' :: rest))) := by
            have h1 : skipWs ((stringifyAt (d + 1) e).data ++
                (T ++ ('\n' :: ((indentStr d).data ++ (']' :: rest))))) =
                skipWs ((itemsStr (d + 1) (e :: es)).data ++
                  (('\n' :: (indentStr d).data) ++ (']' :: rest))) := by
              rw [hT]
              have h2 : (indentStr (d + 1)).data ++ ((stringifyAt (d + 1) e).data ++ T) ++
                  (('\n' :: (indentStr d).data) ++ (']' :: rest)) =
                  (indentStr (d + 1)).data ++ ((stringifyAt (d + 1) e).data ++
                    (T ++ ('\n' :: ((indentStr d).data ++ (']' :: rest))))) := by
                simp [List.append_assoc]
              rw [h2, skipWs_append_of_ws _ (indentStr_ws (d + 1))]
            rw [← parseItems_skipWs f, h1, parseItems_skipWs f]
          rw [hitems]
          rw [parseItems_emit (e :: es) f (d + 1) ('\n' :: (indentStr d).data) rest hwf' hfu'
            (by simp) (by
              intro c hc
              rcases List.mem_cons.mp hc with rfl | hc
              · decide
              · exact indentStr_ws d c hc)]
          rfl
  | Json.obj [], fuel, d, rest, _, hfu, _ => by
      cases fuel with
      | zero => simp [needFuel] at hfu
      | succ f =>
          rw [show (stringifyAt d (Json.obj [])) = "\x7b\x7d" from by simp [stringifyAt]]
          rw [show ("\x7b\x7d" : String).data = ['\x7b', '\x7d'] from rfl]
          simp only [List.cons_append, List.nil_append]
          exact parseVal_step_obj_empty f _ rest (skipWs_cons_of_not_ws (by decide) _)
  | Json.obj (p :: ps), fuel, d, rest, hwf, hfu, hrest => by
      cases fuel with
      | zero => simp [needFuel] at hfu
      | succ f =>
          obtain ⟨k, v⟩ := p
          have hsplit : distinctKeys (((k, v) :: ps).map Prod.fst) = true ∧
              wfPairs ((k, v) :: ps) = true := by
            simpa [wfJson, Bool.and_eq_true] using hwf
          have hfu' : needFuelMembers ((k, v) :: ps) ≤ f := by
            simp only [needFuel] at hfu
            omega
          have hinput : (stringifyAt d (Json.obj ((k, v) :: ps))).data ++ rest =
              '\x7b' :: ('\n' :: ((membersStr (d + 1) ((k, v) :: ps)).data ++
                ('\n' :: ((indentStr d).data ++ ('\x7d' :: rest))))) := by
            rw [show stringifyAt d (Json.obj ((k, v) :: ps)) =
              "\x7b\n" ++ membersStr (d + 1) ((k, v) :: ps) ++ "\n" ++ indentStr d ++ "\x7d" from by
                simp [stringifyAt]]
            simp only [String.data_append]
            simp [List.append_assoc]
          rw [hinput]
          obtain ⟨T, hT, hTalt⟩ := membersStr_data (d + 1) k v ps
          have hre : '\n' :: ((membersStr (d + 1) ((k, v) :: ps)).data ++
              ('\n' :: ((indentStr d).data ++ ('\x7d' :: rest)))) =
              ('\n' :: (indentStr (d + 1)).data) ++ ('"' :: ((escList k.data ++ ['"']) ++
                (':' :: ' ' :: ((stringifyAt (d + 1) v).data ++
                  (T ++ ('\n' :: ((indentStr d).data ++ ('\x7d' :: rest)))))))) := by
            rw [hT]
            rw [show (quoteStr k).data = '"' :: (escList k.data ++ ['"']) from rfl]
            simp [List.append_assoc]
          have hpre : ∀ c ∈ ('\n' :: (indentStr (d + 1)).data), isWsC c = true := by
            intro c hc
            rcases List.mem_cons.mp hc with rfl | hc
            · decide
            · exact indentStr_ws (d + 1) c hc
          have htail : skipWs ('\n' :: ((membersStr (d + 1) ((k, v) :: ps)).data ++
              ('\n' :: ((indentStr d).data ++ ('\x7d' :: rest))))) =
              '"' :: ((escList k.data ++ ['"']) ++
                (':' :: ' ' :: ((stringifyAt (d + 1) v).data ++
                  (T ++ ('\n' :: ((indentStr d).data ++ ('\x7d' :: rest))))))) := by
            rw [hre, skipWs_append_of_ws _ hpre, skipWs_cons_of_not_ws (by decide)]
          rw [parseVal_step_obj f _ '"' _ htail (by decide)]
          have hmem : parseMembers f ('"' :: ((escList k.data ++ ['"']) ++
              (':' :: ' ' :: ((stringifyAt (d + 1) v).data ++
                (T ++ ('\n' :: ((indentStr d).data ++ ('\x7d' :: rest)))))))) =
              parseMembers f ((membersStr (d + 1) ((k, v) :: ps)).data ++
                (('\n' :: (indentStr d).data) ++ ('\x7d' :: rest))) := by
            have h1 : skipWs ('"' :: ((escList k.data ++ ['"']) ++
                (':' :: ' ' :: ((stringifyAt (d + 1) v).data ++
                  (T ++ ('\n' :: ((indentStr d).data ++ ('\x7d' :: rest)))))))) =
                skipWs ((membersStr (d + 1) ((k, v) :: ps)).data ++
                  (('\n' :: (indentStr d).data) ++ ('\x7d' :: rest))) := by
              rw [hT]
              rw [show (quoteStr k).data = '"' :: (escList k.data ++ ['"']) from rfl]
              have h2 : ((indentStr (d + 1)).data ++
                  ('"' :: (escList k.data ++ ['"']) ++
                    ':' :: ' ' :: ((stringifyAt (d + 1) v).data ++ T))) ++
                  (('\n' :: (indentStr d).data) ++ ('\x7d' :: rest)) =
                  (indentStr (d + 1)).data ++ ('"' :: ((escList k.data ++ ['"']) ++
                    (':' :: ' ' :: ((stringifyAt (d + 1) v).data ++
                      (T ++ ('\n' :: ((indentStr d).data ++ ('\x7d' :: rest)))))))) := by
                simp [List.append_assoc]
              rw [h2, skipWs_append_of_ws _ (indentStr_ws (d + 1)),
                skipWs_cons_of_not_ws (by decide)]
            rw [← parseMembers_skipWs f, h1, parseMembers_skipWs f]
          rw [hmem]
          rw [parseMembers_emit ((k, v) :: ps) f (d + 1) ('\n' :: (indentStr d).data) rest
            hsplit.2 hfu' (by simp) (by
              intro c hc
              rcases List.mem_cons.mp hc with rfl | hc
              · decide
              · exact indentStr_ws d c hc)]
          simp [dedupPairs_of_distinct _ hsplit.1]

theorem parseItems_emit : ∀ (es : List Json) (fuel d : Nat) (ws r : List Char),
    wfList es = true → needFuelItems es ≤ fuel → es ≠ [] →
    (∀ c ∈ ws, isWsC c = true) →
    parseItems fuel ((itemsStr d es).data ++ (ws ++ (']' :: r))) = some (es, r)
  | [], _, _, _, _, _, _, hne, _ => absurd rfl hne
  | e :: es, fuel, d, ws, r, hwf, hfu, _, hws => by
      cases fuel with
      | zero =>
          simp only [needFuelItems] at hfu
          omega
      | succ f =>
          have hwfe : wfJson e = true ∧ wfList es = true := by
            simpa [wfList, Bool.and_eq_true] using hwf
          have hfue : needFuel e ≤ f ∧ needFuelItems es ≤ f := by
            simp only [needFuelItems] at hfu
            exact ⟨by omega, by omega⟩
          rw [parseItems_step]
          obtain ⟨T, hT, hTalt⟩ := itemsStr_data d e es
          have hnld : noLeadDigit (T ++ (ws ++ (']' :: r))) = true := by
            rcases hTalt with ⟨-, rfl⟩ | ⟨e2, es', -, rfl⟩
            · simpa using noLeadDigit_ws_append ws ']' r hws (by decide)
            · simp only [List.cons_append, noLeadDigit]
              decide
          have hI : (itemsStr d (e :: es)).data ++ (ws ++ (']' :: r)) =
              (indentStr d).data ++ ((stringifyAt d e).data ++ (T ++ (ws ++ (']' :: r)))) := by
            rw [hT]
            simp [List.append_assoc]
          have hpv : parseVal f ((itemsStr d (e :: es)).data ++ (ws ++ (']' :: r))) =
              some (e, T ++ (ws ++ (']' :: r))) := by
            rw [hI, ← parseVal_skipWs f, skipWs_append_of_ws _ (indentStr_ws d),
              parseVal_skipWs f]
            exact parseVal_emit e f d _ hwfe.1 hfue.1 hnld
          rw [hpv]
          rcases hTalt with ⟨rfl, rfl⟩ | ⟨e2, es', rfl, rfl⟩
          · have hsk : skipWs (ws ++ (']' :: r)) = ']' :: r := by
              rw [skipWs_append_of_ws _ hws, skipWs_cons_of_not_ws (by decide)]
            simp [hsk]
          · have hpi : parseItems f ('\n' :: ((itemsStr d (e2 :: es')).data ++
                (ws ++ (']' :: r)))) = some (e2 :: es', r) := by
              rw [← parseItems_skipWs f, skipWs_ws_cons (by decide), parseItems_skipWs f]
              exact parseItems_emit (e2 :: es') f d ws r hwfe.2 hfue.2 (by simp) hws
            simp [skipWs_cons_of_not_ws (show isWsC ',' = false from by decide), hpi]

theorem parseMembers_emit : ∀ (ps : List (String × Json)) (fuel d : Nat) (ws r : List Char),
    wfPairs ps = true → needFuelMembers ps ≤ fuel → ps ≠ [] →
    (∀ c ∈ ws, isWsC c = true) →
    parseMembers fuel ((membersStr d ps).data ++ (ws ++ ('\x7d' :: r))) = some (ps, r)
  | [], _, _, _, _, _, _, hne, _ => absurd rfl hne
  | (k, v) :: ps, fuel, d, ws, r, hwf, hfu, _, hws => by
      cases fuel with
      | zero =>
          simp only [needFuelMembers] at hfu
          omega
      | succ f =>
          have hwfv : wfJson v = true ∧ wfPairs ps = true := by
            simpa [wfPairs, Bool.and_eq_true] using hwf
          have hfuv : needFuel v ≤ f ∧ needFuelMembers ps ≤ f := by
            simp only [needFuelMembers] at hfu
            exact ⟨by omega, by omega⟩
          rw [parseMembers_step]
          obtain ⟨T, hT, hTalt⟩ := membersStr_data d k v ps
          have hskI : skipWs ((membersStr d ((k, v) :: ps)).data ++ (ws ++ ('\x7d' :: r))) =
              '"' :: ((escList k.data ++ ['"']) ++
                (':' :: ' ' :: ((stringifyAt d v).data ++ (T ++ (ws ++ ('\x7d' :: r)))))) := by
            rw [hT, show (quoteStr k).data = '"' :: (escList k.data ++ ['"']) from rfl]
            have h2 : ((indentStr d).data ++
                (('"' :: (escList k.data ++ ['"'])) ++
                  ':' :: ' ' :: ((stringifyAt d v).data ++ T))) ++ (ws ++ ('\x7d' :: r)) =
                (indentStr d).data ++ ('"' :: ((escList k.data ++ ['"']) ++
                  (':' :: ' ' :: ((stringifyAt d v).data ++ (T ++ (ws ++ ('\x7d' :: r))))))) := by
              simp [List.append_assoc]
            rw [h2, skipWs_append_of_ws _ (indentStr_ws d), skipWs_cons_of_not_ws (by decide)]
          rcases hTalt with ⟨rfl, rfl⟩ | ⟨p2, ps', rfl, rfl⟩
          · have hps : parseStrChars (escList k.data ++
                ('"' :: ':' :: ' ' :: ((stringifyAt d v).data ++ (ws ++ ('\x7d' :: r))))) =
                some (k.data, ':' :: ' ' :: ((stringifyAt d v).data ++ (ws ++ ('\x7d' :: r)))) :=
              parseStrChars_escList k.data _
            have hpv : parseVal f (' ' :: ((stringifyAt d v).data ++ (ws ++ ('\x7d' :: r)))) =
                some (v, ws ++ ('\x7d' :: r)) := by
              rw [← parseVal_skipWs f, skipWs_ws_cons (by decide), parseVal_skipWs f]
              exact parseVal_emit v f d _ hwfv.1 hfuv.1
                (noLeadDigit_ws_append ws '\x7d' r hws (by decide))
            have hsk : skipWs (ws ++ ('\x7d' :: r)) = '\x7d' :: r := by
              rw [skipWs_append_of_ws _ hws, skipWs_cons_of_not_ws (by decide)]
            simp [hskI, hps, skipWs_cons_of_not_ws (show isWsC ':' = false from by decide),
              hpv, hsk, string_mk_data]
          · have hps : parseStrChars (escList k.data ++
                ('"' :: ':' :: ' ' :: ((stringifyAt d v).data ++
                  (',' :: '\n' :: ((membersStr d (p2 :: ps')).data ++ (ws ++ ('\x7d' :: r))))))) =
                some (k.data, ':' :: ' ' :: ((stringifyAt d v).data ++
                  (',' :: '\n' :: ((membersStr d (p2 :: ps')).data ++ (ws ++ ('\x7d' :: r)))))) :=
              parseStrChars_escList k.data _
            have hpv : parseVal f (' ' :: ((stringifyAt d v).data ++
                (',' :: '\n' :: ((membersStr d (p2 :: ps')).data ++ (ws ++ ('\x7d' :: r)))))) =
                some (v, ',' :: '\n' :: ((membersStr d (p2 :: ps')).data ++
                  (ws ++ ('\x7d' :: r)))) := by
              rw [← parseVal_skipWs f, skipWs_ws_cons (by decide), parseVal_skipWs f]
              exact parseVal_emit v f d
                (',' :: '\n' :: ((membersStr d (p2 :: ps')).data ++ (ws ++ ('\x7d' :: r))))
                hwfv.1 hfuv.1 (by simp only [noLeadDigit]; decide)
            have hpm : parseMembers f ('\n' :: ((membersStr d (p2 :: ps')).data ++
                (ws ++ ('\x7d' :: r)))) = some (p2 :: ps', r) := by
              rw [← parseMembers_skipWs f, skipWs_ws_cons (by decide), parseMembers_skipWs f]
              exact parseMembers_emit (p2 :: ps') f d ws r hwfv.2 hfuv.2 (by simp) hws
            simp [hskI, hps, skipWs_cons_of_not_ws (show isWsC ':' = false from by decide),
              hpv, skipWs_cons_of_not_ws (show isWsC ',' = false from by decide),
              hpm, string_mk_data]
end

/-- C8: for every well-formed stored result (every value `JSON.parse` can
produce has duplicate-free keys), the rendered panel text
`JSON.stringify(result, null, 2)` parses back to a value deep-equal to
the stored result. -/
theorem json_export_roundtrip (v : Json) (h : wfJson v = true) :
    jsonParse (stringify2 v) = some v := by
  have hfu : needFuel v ≤ (stringify2 v).length + 1 := by
    have h0 := needFuel_le_len v 0
    have h1 : (stringify2 v).length = (stringifyAt 0 v).length := rfl
    omega
  have hp := parseVal_emit v ((stringify2 v).length + 1) 0 [] h hfu (by decide)
  rw [List.append_nil] at hp
  have hp' : parseVal ((stringify2 v).length + 1) (stringify2 v).data = some (v, []) := hp
  simp [jsonParse, hp', skipWs]

/-- Witness for C8 at a concrete extraction result. -/
theorem json_export_roundtrip_witness :
    wfJson sampleResult = true ∧
    jsonParse (stringify2 sampleResult) = some sampleResult :=
  ⟨by decide, json_export_roundtrip sampleResult (by decide)⟩
